import Mathlib

/-!
# Relay daemon configuration: defaults and JSON loading

A shallow embedding of `config.go` (package `relaydaemon`) and a development of
its properties.

* `Config` and its six sections, `DefaultConfig` and `LoadConfig` are
  transcribed from `config.go`.
* `os.Open` is a file system `FS` mapping a path to the text of the file, or to
  nothing when the file cannot be opened. Files are texts read to their end.
* `encoding/json` is modelled in two layers, after the documented behaviour of
  `Decoder.Decode` into a pre-filled struct: the scanner (`readValue`) reads the
  first JSON value of the text, and the `store` functions decode that value
  into the Go value already there. Keys select struct fields by exact or
  case-insensitive match, unknown keys are skipped, `null` leaves scalars and
  structs alone and makes a slice nil, an array is decoded in place into the
  elements of the slice, and a value of the wrong type is an error reported
  after the rest of the document has been decoded.
* `relayv2.Resources`, declared by the relay library, and the width of `int`
  are parameters (`Deps`).

Errors are told apart by their origin only; `LoadConfig` returns the pair that
the Go function returns, with `none` for the nil error.
-/

namespace RelayDaemon

/-! ## JSON documents -/

/-- Number literal of a JSON text, kept as written: the sign, the integer part
and the text of the fraction and exponent parts (empty for an integer literal). -/
structure JNumber where
  neg : Bool
  int : Nat
  tail : List Char
deriving DecidableEq, Repr

/-- Integer denoted by the sign and integer part of a literal. -/
def JNumber.toInt (n : JNumber) : Int :=
  if n.neg then -(n.int : Int) else (n.int : Int)

/-- JSON value. Object members are kept in document order, repeated keys included. -/
inductive JSON where
  | null
  | bool (b : Bool)
  | num (n : JNumber)
  | str (s : String)
  | arr (elems : List JSON)
  | obj (members : List (String × JSON))
deriving Repr

/-- Members of an object; any other value has none. -/
def JSON.members : JSON → List (String × JSON)
  | .obj ms => ms
  | _ => []

/-! ## Scanner of `encoding/json`

The lexical layer: `scanValue` reads one JSON value from a character list,
as the scanner of `encoding/json` accepts it (RFC 8259 grammar, nesting of at
most `maxNestingDepth` containers), and builds the value with strings unquoted.
-/

/-- Space characters of JSON: space, tab, carriage return, line feed. -/
def isSpace (c : Char) : Bool :=
  c.toNat == 32 || c.toNat == 9 || c.toNat == 13 || c.toNat == 10

/-- Drop leading space characters. -/
def skipSpace : List Char → List Char
  | [] => []
  | c :: cs => if isSpace c then skipSpace cs else c :: cs

/-- Value of a decimal digit. -/
def digitVal (c : Char) : Option Nat :=
  if 48 ≤ c.toNat ∧ c.toNat ≤ 57 then some (c.toNat - 48) else none

/-- Value of a hexadecimal digit, either case. -/
def hexVal (c : Char) : Option Nat :=
  if 48 ≤ c.toNat ∧ c.toNat ≤ 57 then some (c.toNat - 48)
  else if 97 ≤ c.toNat ∧ c.toNat ≤ 102 then some (c.toNat - 87)
  else if 65 ≤ c.toNat ∧ c.toNat ≤ 70 then some (c.toNat - 55)
  else none

/-- Longest run of decimal digits at the head, and what follows it. -/
def scanDigits : List Char → List Char × List Char
  | [] => ([], [])
  | c :: cs =>
    match digitVal c with
    | some _ => ((scanDigits cs).1.cons c, (scanDigits cs).2)
    | none => ([], c :: cs)

/-- Number written by a run of decimal digits. -/
def digitsVal (ds : List Char) : Nat :=
  ds.foldl (fun acc c => acc * 10 + (digitVal c).getD 0) 0

/-- Integer part of a number: a single `0`, or a non-zero digit and more digits. -/
def scanIntPart : List Char → Option (Nat × List Char)
  | [] => none
  | c :: cs =>
    if c.toNat = 48 then some (0, cs)
    else if 49 ≤ c.toNat ∧ c.toNat ≤ 57 then
      some (digitsVal (c :: (scanDigits cs).1), (scanDigits cs).2)
    else none

/-- Optional fraction: a dot and at least one digit. -/
def scanFrac : List Char → Option (List Char × List Char)
  | [] => some ([], [])
  | c :: cs =>
    if c.toNat = 46 then
      (if (scanDigits cs).1 = [] then none
       else some (c :: (scanDigits cs).1, (scanDigits cs).2))
    else some ([], c :: cs)

/-- Digits of an exponent, after the optional sign: at least one. -/
def scanExpDigits (pre : List Char) (cs : List Char) : Option (List Char × List Char) :=
  if (scanDigits cs).1 = [] then none
  else some (pre ++ (scanDigits cs).1, (scanDigits cs).2)

/-- Optional exponent: `e` or `E`, an optional sign and at least one digit. -/
def scanExp : List Char → Option (List Char × List Char)
  | [] => some ([], [])
  | c :: cs =>
    if c.toNat = 101 ∨ c.toNat = 69 then
      match cs with
      | [] => none
      | s :: cs1 =>
        if s.toNat = 43 ∨ s.toNat = 45 then scanExpDigits [c, s] cs1
        else scanExpDigits [c] (s :: cs1)
    else some ([], c :: cs)

/-- Number literal: optional minus, integer part, optional fraction and exponent. -/
def scanNumber (cs : List Char) : Option (JNumber × List Char) :=
  let neg := (cs.head?.map fun c => c.toNat == 45) == some true
  match scanIntPart (if neg then cs.tail else cs) with
  | none => none
  | some (n, r1) =>
    match scanFrac r1 with
    | none => none
    | some (f, r2) =>
      match scanExp r2 with
      | none => none
      | some (e, r3) => some ({ neg := neg, int := n, tail := f ++ e }, r3)

/-- Character named by a one-letter escape. -/
def unescape (e : Char) : Option Char :=
  if e.toNat = 34 ∨ e.toNat = 92 ∨ e.toNat = 47 then some e
  else if e.toNat = 98 then some (Char.ofNat 8)
  else if e.toNat = 102 then some (Char.ofNat 12)
  else if e.toNat = 110 then some (Char.ofNat 10)
  else if e.toNat = 114 then some (Char.ofNat 13)
  else if e.toNat = 116 then some (Char.ofNat 9)
  else none

/-- Code unit written by four hexadecimal digits. -/
def hex4 (a b c d : Char) : Option Nat :=
  match hexVal a, hexVal b, hexVal c, hexVal d with
  | some x, some y, some z, some w => some (((x * 16 + y) * 16 + z) * 16 + w)
  | _, _, _, _ => none

/-- Piece of a quoted string: a character, written directly or by a one-letter
escape, or the 16-bit code unit of a `\uXXXX` escape. -/
inductive StrItem where
  | char (c : Char)
  | unit (n : Nat)
deriving DecidableEq, Repr

/-- Body of a string after its opening quote, up to the closing quote, and the
input after it. Control characters and unknown escapes are errors. -/
def scanItems : List Char → Option (List StrItem × List Char)
  | [] => none
  | c :: rest =>
    if c.toNat = 34 then some ([], rest)
    else if c.toNat < 32 then none
    else if c.toNat = 92 then
      match rest with
      | [] => none
      | e :: rest1 =>
        if e.toNat = 117 then
          match rest1 with
          | h1 :: h2 :: h3 :: h4 :: rest2 =>
            match hex4 h1 h2 h3 h4 with
            | none => none
            | some r => (scanItems rest2).map fun p => (StrItem.unit r :: p.1, p.2)
          | _ => none
        else
          match unescape e with
          | none => none
          | some ch => (scanItems rest1).map fun p => (StrItem.char ch :: p.1, p.2)
    else (scanItems rest).map fun p => (StrItem.char c :: p.1, p.2)

/-- The replacement character U+FFFD. -/
def replacementChar : Char := Char.ofNat 65533

/-- Whether a code unit is half of a surrogate pair. -/
def isSurrogate (r : Nat) : Bool := 55296 ≤ r && r < 57344

/-- Rune of a surrogate pair, if the two code units form one. -/
def decodePair (hi lo : Nat) : Option Char :=
  if 55296 ≤ hi ∧ hi < 56320 ∧ 56320 ≤ lo ∧ lo < 57344 then
    some (Char.ofNat (65536 + (hi - 55296) * 1024 + (lo - 56320)))
  else none

/-- Characters of an unquoted string: two `\u` escapes forming a surrogate pair
give one rune, any other surrogate half gives U+FFFD. -/
def unquote : List StrItem → List Char
  | [] => []
  | .char c :: rest => c :: unquote rest
  | .unit hi :: .unit lo :: rest =>
    if isSurrogate hi then
      match decodePair hi lo with
      | some ch => ch :: unquote rest
      | none => replacementChar :: unquote (.unit lo :: rest)
    else Char.ofNat hi :: unquote (.unit lo :: rest)
  | .unit r :: rest =>
    (if isSurrogate r then replacementChar else Char.ofNat r) :: unquote rest

/-- Quoted string after its opening quote, unquoted, and the input after it. -/
def scanString (cs : List Char) : Option (String × List Char) :=
  (scanItems cs).map fun p => (String.mk (unquote p.1), p.2)

/-- Deepest nesting of arrays and objects the scanner accepts. -/
def maxNestingDepth : Nat := 10000

/-- Input after a literal word (`true`, `false`, `null`), if the input starts with it. -/
def scanWord (w : List Char) (cs : List Char) : Option (List Char) :=
  if w.isPrefixOf cs then some (cs.drop w.length) else none

mutual
/-- One value at the head of the input (leading space skipped) and the input
after it. `fuel` bounds the recursion, `depth` counts the enclosing containers. -/
def scanValue : Nat → Nat → List Char → Option (JSON × List Char)
  | 0, _, _ => none
  | fuel + 1, depth, cs =>
    match skipSpace cs with
    | [] => none
    | c :: rest =>
      if c.toNat = 123 then
        if depth < maxNestingDepth then
          match skipSpace rest with
          | [] => none
          | d :: rest1 =>
            if d.toNat = 125 then some (.obj [], rest1)
            else (scanMembers fuel (depth + 1) (d :: rest1)).map fun p => (.obj p.1, p.2)
        else none
      else if c.toNat = 91 then
        if depth < maxNestingDepth then
          match skipSpace rest with
          | [] => none
          | d :: rest1 =>
            if d.toNat = 93 then some (.arr [], rest1)
            else (scanElems fuel (depth + 1) (d :: rest1)).map fun p => (.arr p.1, p.2)
        else none
      else if c.toNat = 34 then
        (scanString rest).map fun p => (.str p.1, p.2)
      else if c.toNat = 116 then (scanWord [Char.ofNat 114, Char.ofNat 117, Char.ofNat 101] rest).map fun r => (.bool true, r)
      else if c.toNat = 102 then (scanWord [Char.ofNat 97, Char.ofNat 108, Char.ofNat 115, Char.ofNat 101] rest).map fun r => (.bool false, r)
      else if c.toNat = 110 then (scanWord [Char.ofNat 117, Char.ofNat 108, Char.ofNat 108] rest).map fun r => (.null, r)
      else (scanNumber (c :: rest)).map fun p => (.num p.1, p.2)
/-- Members of an object from the first key on, up to the closing brace. -/
def scanMembers : Nat → Nat → List Char → Option (List (String × JSON) × List Char)
  | 0, _, _ => none
  | fuel + 1, depth, cs =>
    match skipSpace cs with
    | [] => none
    | q :: rest =>
      if q.toNat = 34 then
        match scanString rest with
        | none => none
        | some (key, rest1) =>
          match skipSpace rest1 with
          | [] => none
          | colon :: rest2 =>
            if colon.toNat = 58 then
              match scanValue fuel depth rest2 with
              | none => none
              | some (v, rest3) =>
                match skipSpace rest3 with
                | [] => none
                | sep :: rest4 =>
                  if sep.toNat = 125 then some ([(key, v)], rest4)
                  else if sep.toNat = 44 then
                    (scanMembers fuel depth rest4).map fun p => ((key, v) :: p.1, p.2)
                  else none
            else none
      else none
/-- Elements of an array from the first one on, up to the closing bracket. -/
def scanElems : Nat → Nat → List Char → Option (List JSON × List Char)
  | 0, _, _ => none
  | fuel + 1, depth, cs =>
    match scanValue fuel depth cs with
    | none => none
    | some (v, rest) =>
      match skipSpace rest with
      | [] => none
      | sep :: rest1 =>
        if sep.toNat = 93 then some ([v], rest1)
        else if sep.toNat = 44 then
          (scanElems fuel depth rest1).map fun p => (v :: p.1, p.2)
        else none
end

/-- Failure of `LoadConfig`, by origin: `os.Open` failed, the file holds no
complete well-formed JSON value, or a JSON value does not fit the Go type of the
field it is decoded into. -/
inductive Error where
  | openFailed (path : String)
  | malformed
  | typeMismatch
deriving DecidableEq, Repr

/-- Next JSON value of the stream, as `Decoder.Decode` reads it before storing
anything: the first complete value of the text, after leading space. Reading
ends with that value: whatever follows it, well-formed or not, is left unread
and has no effect on this call. The fuel given to `scanValue` is enough for any
text (`scanValue_fuel_enough`). -/
def readValue (text : String) : Except Error JSON :=
  match scanValue (text.length + 1) 0 text.data with
  | none => .error .malformed
  | some (v, _) => .ok v

/-- Slice of strings: the elements below its length, and the cells of its
backing array beyond the length, which keep what an earlier, longer value left
there. The nil slice and the empty slice are both `⟨[], []⟩`. -/
structure GoSlice where
  elems : List String
  spare : List String
deriving DecidableEq, Repr

/-- Slice written as a composite literal: length and capacity agree. -/
def GoSlice.lit (l : List String) : GoSlice := ⟨l, []⟩

/-- The nil slice. -/
def GoSlice.nil : GoSlice := ⟨[], []⟩

/-- The unit of `time.Duration`: a duration is a count of nanoseconds. -/
def Nanosecond : Int := 1

/-- The constant `time.Microsecond`. -/
def Microsecond : Int := 1000 * Nanosecond

/-- The constant `time.Millisecond`. -/
def Millisecond : Int := 1000 * Microsecond

/-- The constant `time.Second`. -/
def Second : Int := 1000 * Millisecond

/-- The constant `time.Minute`. -/
def Minute : Int := 60 * Second

/-- Width of Go's `int` on the platform the daemon is built for. -/
inductive WordSize where
  | w32
  | w64
deriving DecidableEq, Repr

/-- Number of bits of `int`. -/
def WordSize.bits : WordSize → Nat
  | .w32 => 32
  | .w64 => 64

/-- Whether an integer is a value of the signed type of the given width. -/
def fitsInt (bits : Nat) (x : Int) : Bool :=
  decide (-(2 ^ (bits - 1) : Int) ≤ x) && decide (x < (2 ^ (bits - 1) : Int))

/-- What `config.go` takes from outside the repository: the platform's `int`
width, and the type `relayv2.Resources` of the circuit-v2 relay library with its
zero value, its `DefaultResources()` and the way `encoding/json` decodes a JSON
value into it (the new value, and whether decoding reported an error). -/
structure Deps where
  intSize : WordSize
  Resources : Type
  zeroResources : Resources
  DefaultResources : Resources
  unmarshalResources : JSON → Resources → Resources × Bool

/-! ## The configuration structures of `config.go` -/

/-- DaemonConfig controls settings for the relay-daemon itself. -/
structure DaemonConfig where
  PprofPort : Int
deriving DecidableEq, Repr

/-- NetworkConfig controls listen and announce settings for the libp2p host. -/
structure NetworkConfig where
  ListenAddrs : GoSlice
  AnnounceAddrs : GoSlice
deriving DecidableEq, Repr

/-- ConnMgrConfig controls the libp2p connection manager settings;
`ConnMgrGrace` is a `time.Duration`, a count of nanoseconds. -/
structure ConnMgrConfig where
  ConnMgrLo : Int
  ConnMgrHi : Int
  ConnMgrGrace : Int
deriving DecidableEq, Repr

/-- RelayConfig controls activation of V2 circuits and their resources. -/
structure RelayConfig (R : Type) where
  Enabled : Bool
  Resources : R
deriving DecidableEq, Repr

/-- NATServiceConfig controls activation of the AutoNAT service. -/
structure NATServiceConfig where
  Enabled : Bool
deriving DecidableEq, Repr

/-- ACLConfig lists the peers and subnets allowed to make reservations. -/
structure ACLConfig where
  AllowPeers : GoSlice
  AllowSubnets : GoSlice
deriving DecidableEq, Repr

/-- Config stores the full configuration of the relay daemon. -/
structure Config (R : Type) where
  Network : NetworkConfig
  ConnMgr : ConnMgrConfig
  Relay : RelayConfig R
  NATService : NATServiceConfig
  ACL : ACLConfig
  Daemon : DaemonConfig
deriving DecidableEq, Repr

/-- The zero value `Config{}`. -/
def Config.zero (D : Deps) : Config D.Resources :=
  { Network := { ListenAddrs := GoSlice.nil, AnnounceAddrs := GoSlice.nil }
    ConnMgr := { ConnMgrLo := 0, ConnMgrHi := 0, ConnMgrGrace := 0 }
    Relay := { Enabled := false, Resources := D.zeroResources }
    NATService := { Enabled := false }
    ACL := { AllowPeers := GoSlice.nil, AllowSubnets := GoSlice.nil }
    Daemon := { PprofPort := 0 } }

/-- DefaultConfig returns a default relay configuration using default resource
settings and no ACLs. -/
def DefaultConfig (D : Deps) : Config D.Resources :=
  { Network :=
      { ListenAddrs := GoSlice.lit
          [ "/ip4/0.0.0.0/udp/4001/quic",
            "/ip6/::/udp/4001/quic",
            "/ip4/0.0.0.0/tcp/4001",
            "/ip6/::/tcp/4001" ]
        AnnounceAddrs := GoSlice.nil }
    ConnMgr :=
      { ConnMgrLo := 512
        ConnMgrHi := 768
        ConnMgrGrace := 2 * Minute }
    Relay :=
      { Enabled := true
        Resources := D.DefaultResources }
    NATService := { Enabled := true }
    ACL := { AllowPeers := GoSlice.nil, AllowSubnets := GoSlice.nil }
    Daemon := { PprofPort := 6060 } }

/-! ## Decoding a JSON value into a pre-filled Go value (`encoding/json`)

Each `store` function gives the new value of the target and whether an
`UnmarshalTypeError` was recorded; after such an error the decoder goes on with
the rest of the document and reports the error at the end.
-/

/-- Case folding of key comparison: ASCII letters to upper case, and the two
other runes that fold to an ASCII letter, U+017F to `S` and U+212A to `K`. -/
def foldRune (c : Char) : Char :=
  if 97 ≤ c.toNat ∧ c.toNat ≤ 122 then Char.ofNat (c.toNat - 32)
  else if c.toNat = 383 then Char.ofNat 83
  else if c.toNat = 8490 then Char.ofNat 75
  else c

/-- Folded form of a name. -/
def foldName (s : String) : List Char := s.data.map foldRune

/-- Whether an object key selects the struct field of the given name: an exact
match, or else a match up to case folding. -/
def keyMatches (name key : String) : Bool :=
  key == name || foldName key == foldName name

/-- JSON value into an `int`-kind field of the given width: an integer literal
within the range of `int64` and of the field is stored, `null` changes nothing,
anything else is a type error. -/
def storeInt (bits : Nat) (v : JSON) (old : Int) : Int × Bool :=
  match v with
  | .null => (old, false)
  | .num n =>
    if n.tail = [] ∧ fitsInt 64 n.toInt = true ∧ fitsInt bits n.toInt = true then (n.toInt, false)
    else (old, true)
  | _ => (old, true)

/-- JSON value into a `bool` field. -/
def storeBool (v : JSON) (old : Bool) : Bool × Bool :=
  match v with
  | .null => (old, false)
  | .bool b => (b, false)
  | _ => (old, true)

/-- JSON value into a `string`. -/
def storeString (v : JSON) (old : String) : String × Bool :=
  match v with
  | .null => (old, false)
  | .str s => (s, false)
  | _ => (old, true)

/-- Array elements into the cells of a backing array, in place, cell by cell:
the decoded elements, the cells left beyond them, and whether an element was a
type error. A cell past the end of the backing array starts as the empty string. -/
def storeElems : List JSON → List String → List String × List String × Bool
  | [], cells => ([], cells, false)
  | e :: es, cells =>
    ((storeString e (cells.headD "")).1 :: (storeElems es cells.tail).1,
     (storeElems es cells.tail).2.1,
     (storeString e (cells.headD "")).2 || (storeElems es cells.tail).2.2)

/-- JSON value into a `[]string` field: `null` gives the nil slice, an empty
array a fresh empty slice, a non-empty array is decoded into the existing
backing array, anything else is a type error. -/
def storeStrings (v : JSON) (old : GoSlice) : GoSlice × Bool :=
  match v with
  | .null => (GoSlice.nil, false)
  | .arr [] => (GoSlice.nil, false)
  | .arr (e :: es) =>
    (⟨(storeElems (e :: es) (old.elems ++ old.spare)).1,
      (storeElems (e :: es) (old.elems ++ old.spare)).2.1⟩,
     (storeElems (e :: es) (old.elems ++ old.spare)).2.2)
  | _ => (old, true)

/-- One object member applied to a struct by `setField`, the error flag kept. -/
def storeMember {S : Type} (setField : String → JSON → S → S × Bool)
    (acc : S × Bool) (kv : String × JSON) : S × Bool :=
  ((setField kv.1 kv.2 acc.1).1, acc.2 || (setField kv.1 kv.2 acc.1).2)

/-- JSON value into a struct whose fields are set by `setField`: the members of
an object are applied in document order, `null` changes nothing, anything else
is a type error. -/
def storeStruct {S : Type} (setField : String → JSON → S → S × Bool)
    (v : JSON) (s : S) : S × Bool :=
  match v with
  | .null => (s, false)
  | .obj ms => ms.foldl (storeMember setField) (s, false)
  | _ => (s, true)

/-- Member of a `DaemonConfig` object; a key matching no field is skipped. -/
def DaemonConfig.setField (D : Deps) (key : String) (v : JSON) (c : DaemonConfig) :
    DaemonConfig × Bool :=
  if keyMatches "PprofPort" key then
    ({ c with PprofPort := (storeInt D.intSize.bits v c.PprofPort).1 },
      (storeInt D.intSize.bits v c.PprofPort).2)
  else (c, false)

/-- Member of a `NetworkConfig` object. -/
def NetworkConfig.setField (key : String) (v : JSON) (c : NetworkConfig) :
    NetworkConfig × Bool :=
  if keyMatches "ListenAddrs" key then
    ({ c with ListenAddrs := (storeStrings v c.ListenAddrs).1 },
      (storeStrings v c.ListenAddrs).2)
  else if keyMatches "AnnounceAddrs" key then
    ({ c with AnnounceAddrs := (storeStrings v c.AnnounceAddrs).1 },
      (storeStrings v c.AnnounceAddrs).2)
  else (c, false)

/-- Member of a `ConnMgrConfig` object; `time.Duration` is an `int64`. -/
def ConnMgrConfig.setField (D : Deps) (key : String) (v : JSON) (c : ConnMgrConfig) :
    ConnMgrConfig × Bool :=
  if keyMatches "ConnMgrLo" key then
    ({ c with ConnMgrLo := (storeInt D.intSize.bits v c.ConnMgrLo).1 },
      (storeInt D.intSize.bits v c.ConnMgrLo).2)
  else if keyMatches "ConnMgrHi" key then
    ({ c with ConnMgrHi := (storeInt D.intSize.bits v c.ConnMgrHi).1 },
      (storeInt D.intSize.bits v c.ConnMgrHi).2)
  else if keyMatches "ConnMgrGrace" key then
    ({ c with ConnMgrGrace := (storeInt 64 v c.ConnMgrGrace).1 },
      (storeInt 64 v c.ConnMgrGrace).2)
  else (c, false)

/-- Member of a `RelayConfig` object. -/
def RelayConfig.setField (D : Deps) (key : String) (v : JSON) (c : RelayConfig D.Resources) :
    RelayConfig D.Resources × Bool :=
  if keyMatches "Enabled" key then
    ({ c with Enabled := (storeBool v c.Enabled).1 }, (storeBool v c.Enabled).2)
  else if keyMatches "Resources" key then
    ({ c with Resources := (D.unmarshalResources v c.Resources).1 },
      (D.unmarshalResources v c.Resources).2)
  else (c, false)

/-- Member of a `NATServiceConfig` object. -/
def NATServiceConfig.setField (key : String) (v : JSON) (c : NATServiceConfig) :
    NATServiceConfig × Bool :=
  if keyMatches "Enabled" key then
    ({ c with Enabled := (storeBool v c.Enabled).1 }, (storeBool v c.Enabled).2)
  else (c, false)

/-- Member of an `ACLConfig` object. -/
def ACLConfig.setField (key : String) (v : JSON) (c : ACLConfig) : ACLConfig × Bool :=
  if keyMatches "AllowPeers" key then
    ({ c with AllowPeers := (storeStrings v c.AllowPeers).1 },
      (storeStrings v c.AllowPeers).2)
  else if keyMatches "AllowSubnets" key then
    ({ c with AllowSubnets := (storeStrings v c.AllowSubnets).1 },
      (storeStrings v c.AllowSubnets).2)
  else (c, false)

/-- Member of the top-level `Config` object. -/
def Config.setField (D : Deps) (key : String) (v : JSON) (c : Config D.Resources) :
    Config D.Resources × Bool :=
  if keyMatches "Network" key then
    ({ c with Network := (storeStruct NetworkConfig.setField v c.Network).1 },
      (storeStruct NetworkConfig.setField v c.Network).2)
  else if keyMatches "ConnMgr" key then
    ({ c with ConnMgr := (storeStruct (ConnMgrConfig.setField D) v c.ConnMgr).1 },
      (storeStruct (ConnMgrConfig.setField D) v c.ConnMgr).2)
  else if keyMatches "Relay" key then
    ({ c with Relay := (storeStruct (RelayConfig.setField D) v c.Relay).1 },
      (storeStruct (RelayConfig.setField D) v c.Relay).2)
  else if keyMatches "NATService" key then
    ({ c with NATService := (storeStruct NATServiceConfig.setField v c.NATService).1 },
      (storeStruct NATServiceConfig.setField v c.NATService).2)
  else if keyMatches "ACL" key then
    ({ c with ACL := (storeStruct ACLConfig.setField v c.ACL).1 },
      (storeStruct ACLConfig.setField v c.ACL).2)
  else if keyMatches "Daemon" key then
    ({ c with Daemon := (storeStruct (DaemonConfig.setField D) v c.Daemon).1 },
      (storeStruct (DaemonConfig.setField D) v c.Daemon).2)
  else (c, false)

/-- JSON value into a `Config`: the new value and whether a type error was recorded. -/
def Unmarshal (D : Deps) (v : JSON) (cfg : Config D.Resources) : Config D.Resources × Bool :=
  storeStruct (Config.setField D) v cfg

/-- Outcome of `decoder.Decode(&cfg)` on a file with the given text: the value of
`cfg` afterwards and the error returned. A malformed text leaves `cfg` as it
was; a type error leaves it with whatever else the document set. -/
def Decode (D : Deps) (text : String) (cfg : Config D.Resources) :
    Config D.Resources × Option Error :=
  match readValue text with
  | .error e => (cfg, some e)
  | .ok v => ((Unmarshal D v cfg).1, if (Unmarshal D v cfg).2 then some Error.typeMismatch else none)

/-! ## Loading -/

/-- File system as `os.Open` and the reads that follow see it: the text of the
file at a path, read to its end, or `none` when the file cannot be opened. The
text is a sequence of Unicode characters: bytes that are not UTF-8 and reads
that fail midway are not modelled. -/
abbrev FS := String → Option String

/-- File system holding the one file `path` with the given text. -/
def singleFile (path text : String) : FS :=
  fun p => if p = path then some text else none

/-- LoadConfig reads a relay daemon JSON configuration from the given path. The
configuration is first initialized with DefaultConfig, so all unset fields take
their defaults from there. The result is the pair Go returns: the `Config` and
the error, `none` for nil. -/
def LoadConfig (D : Deps) (fs : FS) (cfgPath : String) : Config D.Resources × Option Error :=
  let cfg := DefaultConfig D
  if cfgPath ≠ "" then
    match fs cfgPath with
    | none => (Config.zero D, some (Error.openFailed cfgPath))
    | some cfgFile =>
      match Decode D cfgFile cfg with
      | (_, some err) => (Config.zero D, some err)
      | (cfg, none) => (cfg, none)
  else (cfg, none)

/-! ## What a document says about a field -/

/-- Values of the members whose key selects the field `name`, in document order. -/
def valuesAt (name : String) : List (String × JSON) → List JSON
  | [] => []
  | kv :: ms => if keyMatches name kv.1 then kv.2 :: valuesAt name ms else valuesAt name ms

/-- Values a document gives for the field `field` of the section `sect`, in
document order: those of every member selecting `field` inside every top-level
member selecting `sect`. The field is absent from the document when there are none. -/
def leafValues (doc : JSON) (sect field : String) : List JSON :=
  (valuesAt sect doc.members).flatMap fun v => valuesAt field v.members

/-- Whether a value is the literal `null`. -/
def JSON.isNull : JSON → Bool
  | .null => true
  | _ => false

/-- Last value of a list that is not `null`. -/
def lastNonNull (vs : List JSON) : Option JSON :=
  (vs.filter fun v => !v.isNull).getLast?

/-- Integer a value denotes: an integer literal, without fraction or exponent. -/
def JSON.asInt : JSON → Option Int
  | .num n => if n.tail = [] then some n.toInt else none
  | _ => none

/-- Boolean a value denotes. -/
def JSON.asBool : JSON → Option Bool
  | .bool b => some b
  | _ => none

/-- Strings of a list of values that are all strings. -/
def stringsOf : List JSON → Option (List String)
  | [] => some []
  | .str s :: es => (stringsOf es).map fun l => s :: l
  | _ :: _ => none

/-- List of strings a value denotes: an array whose elements are all strings. -/
def JSON.asStrings : JSON → Option (List String)
  | .arr es => stringsOf es
  | _ => none

/-- Integer literal of an integer. -/
def JNumber.ofInt (x : Int) : JNumber := ⟨decide (x < 0), x.natAbs, []⟩

/-- Values applied one after the other to a target by a `store` function: the
final value and whether any of them was a type error. -/
def runVals {α : Type} (upd : JSON → α → α × Bool) : List JSON → α → α × Bool
  | [], a => (a, false)
  | v :: vs, a => ((runVals upd vs (upd v a).1).1, (upd v a).2 || (runVals upd vs (upd v a).1).2)

/-- A field `name` of a struct, read by `get` and decoded by `upd`: members whose
key selects the field store into it, all others leave it alone. -/
structure FieldLens {S α : Type} (setField : String → JSON → S → S × Bool)
    (name : String) (get : S → α) (upd : JSON → α → α × Bool) : Prop where
  hit : ∀ k v s, keyMatches name k = true → get (setField k v s).1 = (upd v (get s)).1
  hitErr : ∀ k v s, keyMatches name k = true → (setField k v s).2 = (upd v (get s)).2
  miss : ∀ k v s, keyMatches name k = false → get (setField k v s).1 = get s

/-- A `store` function of a scalar type with denotation `den`: `null` changes
nothing, and any other value stored without error is stored as what it denotes. -/
structure ScalarStore {α : Type} (upd : JSON → α → α × Bool) (den : JSON → Option α) : Prop where
  null : ∀ a, upd JSON.null a = (a, false)
  typed : ∀ v a, v.isNull = false → (upd v a).2 = false → den v = some (upd v a).1

/-! ## A concrete build

The relay library's `Resources` as go-libp2p declares it, on a 64-bit
platform: an instance of `Deps` on which the model can be evaluated.
-/

/-- RelayLimit of the circuit-v2 relay package: the limits of a relayed connection. -/
structure RelayLimit where
  Duration : Int
  Data : Int
deriving DecidableEq, Repr

/-- Resources of the circuit-v2 relay package. `Limit` is a pointer, nil when `none`. -/
structure Resources where
  Limit : Option RelayLimit
  ReservationTTL : Int
  MaxReservations : Int
  MaxCircuits : Int
  BufferSize : Int
  MaxReservationsPerPeer : Int
  MaxReservationsPerIP : Int
  MaxReservationsPerASN : Int
deriving DecidableEq, Repr

/-- The zero value `Resources{}`. -/
def Resources.zero : Resources :=
  { Limit := none, ReservationTTL := 0, MaxReservations := 0, MaxCircuits := 0,
    BufferSize := 0, MaxReservationsPerPeer := 0, MaxReservationsPerIP := 0,
    MaxReservationsPerASN := 0 }

/-- DefaultResources of the relay package. -/
def Resources.default : Resources :=
  { Limit := some { Duration := 2 * Minute, Data := 131072 }
    ReservationTTL := 60 * Minute
    MaxReservations := 128
    MaxCircuits := 16
    BufferSize := 2048
    MaxReservationsPerPeer := 4
    MaxReservationsPerIP := 8
    MaxReservationsPerASN := 32 }

/-- Member of a `RelayLimit` object. -/
def RelayLimit.setField (key : String) (v : JSON) (c : RelayLimit) : RelayLimit × Bool :=
  if keyMatches "Duration" key then
    ({ c with Duration := (storeInt 64 v c.Duration).1 }, (storeInt 64 v c.Duration).2)
  else if keyMatches "Data" key then
    ({ c with Data := (storeInt 64 v c.Data).1 }, (storeInt 64 v c.Data).2)
  else (c, false)

/-- JSON value into a `*RelayLimit`: `null` gives nil, anything else is decoded
into the struct pointed to, allocated first if the pointer is nil. -/
def storeLimit (v : JSON) (old : Option RelayLimit) : Option RelayLimit × Bool :=
  match v with
  | .null => (none, false)
  | _ => (some (storeStruct RelayLimit.setField v (old.getD ⟨0, 0⟩)).1,
          (storeStruct RelayLimit.setField v (old.getD ⟨0, 0⟩)).2)

/-- Member of a `Resources` object, on a 64-bit platform. -/
def Resources.setField (key : String) (v : JSON) (c : Resources) : Resources × Bool :=
  if keyMatches "Limit" key then
    ({ c with Limit := (storeLimit v c.Limit).1 }, (storeLimit v c.Limit).2)
  else if keyMatches "ReservationTTL" key then
    ({ c with ReservationTTL := (storeInt 64 v c.ReservationTTL).1 },
      (storeInt 64 v c.ReservationTTL).2)
  else if keyMatches "MaxReservations" key then
    ({ c with MaxReservations := (storeInt 64 v c.MaxReservations).1 },
      (storeInt 64 v c.MaxReservations).2)
  else if keyMatches "MaxCircuits" key then
    ({ c with MaxCircuits := (storeInt 64 v c.MaxCircuits).1 },
      (storeInt 64 v c.MaxCircuits).2)
  else if keyMatches "BufferSize" key then
    ({ c with BufferSize := (storeInt 64 v c.BufferSize).1 },
      (storeInt 64 v c.BufferSize).2)
  else if keyMatches "MaxReservationsPerPeer" key then
    ({ c with MaxReservationsPerPeer := (storeInt 64 v c.MaxReservationsPerPeer).1 },
      (storeInt 64 v c.MaxReservationsPerPeer).2)
  else if keyMatches "MaxReservationsPerIP" key then
    ({ c with MaxReservationsPerIP := (storeInt 64 v c.MaxReservationsPerIP).1 },
      (storeInt 64 v c.MaxReservationsPerIP).2)
  else if keyMatches "MaxReservationsPerASN" key then
    ({ c with MaxReservationsPerASN := (storeInt 64 v c.MaxReservationsPerASN).1 },
      (storeInt 64 v c.MaxReservationsPerASN).2)
  else (c, false)

/-- The daemon built for a 64-bit platform against go-libp2p. -/
def linux64 : Deps :=
  { intSize := WordSize.w64
    Resources := Resources
    zeroResources := Resources.zero
    DefaultResources := Resources.default
    unmarshalResources := storeStruct Resources.setField }

/-- Path of the configuration file in the examples. -/
def confPath : String := "relay.json"

/-- Document raising the high watermark: `{"ConnMgr":{"ConnMgrHi":1000}}`. -/
def hiText : String := "\x7b\"ConnMgr\":\x7b\"ConnMgrHi\":1000\x7d\x7d"

/-- Document raising the low watermark above the default high one:
`{"ConnMgr":{"ConnMgrLo":1000}}`. -/
def loText : String := "\x7b\"ConnMgr\":\x7b\"ConnMgrLo\":1000\x7d\x7d"

/-- Document disabling the relay: `{"Relay":{"Enabled":false}}`. -/
def relayOffText : String := "\x7b\"Relay\":\x7b\"Enabled\":false\x7d\x7d"

/-- Document setting the profiling port to zero: `{"Daemon":{"PprofPort":0}}`. -/
def portZeroText : String := "\x7b\"Daemon\":\x7b\"PprofPort\":0\x7d\x7d"

/-- Document giving `null` for the profiling port: `{"Daemon":{"PprofPort":null}}`. -/
def portNullText : String := "\x7b\"Daemon\":\x7b\"PprofPort\":null\x7d\x7d"

/-- Document whose second member is a type error:
`{"Daemon":{"PprofPort":1},"ConnMgr":{"ConnMgrLo":"x"}}`. -/
def lateErrorText : String :=
  "\x7b\"Daemon\":\x7b\"PprofPort\":1\x7d,\"ConnMgr\":\x7b\"ConnMgrLo\":\"x\"\x7d\x7d"

/-- Document giving the list `l` as listen addresses: `{"Network":{"ListenAddrs":l}}`. -/
def listenDoc (l : List String) : JSON :=
  JSON.obj [("Network", JSON.obj [("ListenAddrs", JSON.arr (l.map JSON.str))])]

/-- Document giving the three connection-manager settings:
`{"ConnMgr":{"ConnMgrLo":lo,"ConnMgrHi":hi,"ConnMgrGrace":grace}}`. -/
def connMgrDoc (lo hi grace : Int) : JSON :=
  JSON.obj [("ConnMgr", JSON.obj
    [("ConnMgrLo", JSON.num (JNumber.ofInt lo)),
     ("ConnMgrHi", JSON.num (JNumber.ofInt hi)),
     ("ConnMgrGrace", JSON.num (JNumber.ofInt grace))])]

/-- Text with one listen address: `{"Network":{"ListenAddrs":["/ip4/127.0.0.1/tcp/9000"]}}`. -/
def oneAddrText : String :=
  "\x7b\"Network\":\x7b\"ListenAddrs\":[\"/ip4/127.0.0.1/tcp/9000\"]\x7d\x7d"

/-- Text with watermarks the wrong way round and a negative grace period:
`{"ConnMgr":{"ConnMgrLo":1000,"ConnMgrHi":10,"ConnMgrGrace":-5}}`. -/
def badWatermarksText : String :=
  "\x7b\"ConnMgr\":\x7b\"ConnMgrLo\":1000,\"ConnMgrHi\":10,\"ConnMgrGrace\":-5\x7d\x7d"

/-! ## Writing a document

One way to write the document `listenDoc l` as a text, for any list `l`. -/

/-- Lower-case hexadecimal digit of a number below 16. -/
def hexDigit (n : Nat) : Char :=
  if n < 10 then Char.ofNat (48 + n) else Char.ofNat (87 + n)

/-- A character as written inside a JSON string: quote and backslash behind a
backslash, control characters as a `\u00XX` escape, anything else as it is. -/
def quoteChar (c : Char) : List Char :=
  if c.toNat = 34 ∨ c.toNat = 92 then [Char.ofNat 92, c]
  else if c.toNat < 32 then
    [Char.ofNat 92, Char.ofNat 117, Char.ofNat 48, Char.ofNat 48,
      hexDigit (c.toNat / 16), hexDigit (c.toNat % 16)]
  else [c]

/-- Characters of a string as written between the quotes. -/
def quoteBody : List Char → List Char
  | [] => []
  | c :: cs => quoteChar c ++ quoteBody cs

/-- JSON text of a string. -/
def quoteString (s : String) : List Char :=
  Char.ofNat 34 :: (quoteBody s.data ++ [Char.ofNat 34])

/-- JSON texts of strings, separated by commas. -/
def renderStrings : List String → List Char
  | [] => []
  | s :: [] => quoteString s
  | s :: t :: l => quoteString s ++ Char.ofNat 44 :: renderStrings (t :: l)

/-- Characters of the text `{"Network":{"ListenAddrs":[...]}}` listing `l`. -/
def listenChars (l : List String) : List Char :=
  Char.ofNat 123 :: (quoteString "Network" ++ Char.ofNat 58 ::
    Char.ofNat 123 :: (quoteString "ListenAddrs" ++ Char.ofNat 58 ::
      Char.ofNat 91 :: (renderStrings l ++ [Char.ofNat 93, Char.ofNat 125, Char.ofNat 125])))

/-- Text of the document `listenDoc l`. -/
def listenText (l : List String) : String := String.mk (listenChars l)

/-- Piece of a quoted string the scanner reads where `quoteChar c` is written. -/
def itemOf (c : Char) : StrItem :=
  if c.toNat < 32 then StrItem.unit c.toNat else StrItem.char c

/-- Decimal digit of a number below 10. -/
def digitChar (d : Nat) : Char := Char.ofNat (48 + d)

/-- Decimal numeral of a natural number, without leading zeros. -/
def renderNat (n : Nat) : List Char :=
  if n = 0 then [Char.ofNat 48] else (Nat.digits 10 n).reverse.map digitChar

/-- Decimal numeral of an integer. -/
def renderInt (x : Int) : List Char :=
  if x < 0 then Char.ofNat 45 :: renderNat x.natAbs else renderNat x.natAbs

/-- Characters of the text
`{"ConnMgr":{"ConnMgrLo":lo,"ConnMgrHi":hi,"ConnMgrGrace":grace}}`. -/
def connMgrChars (lo hi grace : Int) : List Char :=
  Char.ofNat 123 :: (quoteString "ConnMgr" ++ Char.ofNat 58 ::
    Char.ofNat 123 :: (quoteString "ConnMgrLo" ++ Char.ofNat 58 :: (renderInt lo ++
      Char.ofNat 44 :: (quoteString "ConnMgrHi" ++ Char.ofNat 58 :: (renderInt hi ++
        Char.ofNat 44 :: (quoteString "ConnMgrGrace" ++ Char.ofNat 58 :: (renderInt grace ++
          [Char.ofNat 125, Char.ofNat 125])))))))

/-- Text of the document `connMgrDoc lo hi grace`. -/
def connMgrText (lo hi grace : Int) : String := String.mk (connMgrChars lo hi grace)

/-- Character that ends a number inside an object: a comma or a closing brace. -/
def endsNumber (c : Char) : Bool := c.toNat == 44 || c.toNat == 125

/-! ## The scanner does not run out of fuel -/

/-- Skipping space does not lengthen the input. -/
theorem skipSpace_length (cs : List Char) : (skipSpace cs).length ≤ cs.length := by
  induction cs with
  | nil => simp [skipSpace]
  | cons c cs ih =>
    simp only [skipSpace]
    split
    · simp only [List.length_cons]
      omega
    · simp

/-- What skipping space leaves is no longer than the input. -/
theorem skipSpace_eq_cons {cs : List Char} {c : Char} {rest : List Char}
    (h : skipSpace cs = c :: rest) : rest.length < cs.length := by
  have := skipSpace_length cs
  rw [h] at this
  simp only [List.length_cons] at this
  omega

/-- The body of a string takes at least its closing quote. -/
theorem scanItems_length : ∀ (n : Nat) (cs : List Char), cs.length ≤ n →
    ∀ items rest, scanItems cs = some (items, rest) → rest.length < cs.length := by
  intro n
  induction n with
  | zero =>
    intro cs hn items rest h
    cases cs with
    | nil => simp [scanItems] at h
    | cons c cs => simp at hn
  | succ n ih =>
    intro cs hn items rest h
    rw [scanItems.eq_def] at h
    split at h
    · simp at h
    · rename_i c rest0
      simp only [List.length_cons] at hn ⊢
      split at h
      · simp only [Option.some.injEq, Prod.mk.injEq] at h
        rw [← h.2]
        omega
      · split at h
        · simp at h
        · split at h
          · split at h
            · simp at h
            · rename_i e rest1
              simp only [List.length_cons] at hn ⊢
              split at h
              · split at h
                · rename_i h1 h2 h3 h4 rest2
                  simp only [List.length_cons] at hn ⊢
                  split at h
                  · simp at h
                  · simp only [Option.map_eq_some'] at h
                    obtain ⟨p, hp, hpe⟩ := h
                    have := ih rest2 (by omega) p.1 p.2 (by rw [hp])
                    simp only [Prod.mk.injEq] at hpe
                    rw [← hpe.2]
                    omega
                · simp at h
              · split at h
                · simp at h
                · simp only [Option.map_eq_some'] at h
                  obtain ⟨p, hp, hpe⟩ := h
                  have := ih rest1 (by omega) p.1 p.2 (by rw [hp])
                  simp only [Prod.mk.injEq] at hpe
                  rw [← hpe.2]
                  omega
          · simp only [Option.map_eq_some'] at h
            obtain ⟨p, hp, hpe⟩ := h
            have := ih rest0 (by omega) p.1 p.2 (by rw [hp])
            simp only [Prod.mk.injEq] at hpe
            rw [← hpe.2]
            omega

/-- A quoted string takes at least its closing quote. -/
theorem scanString_length {cs : List Char} {s : String} {rest : List Char}
    (h : scanString cs = some (s, rest)) : rest.length < cs.length := by
  simp only [scanString, Option.map_eq_some'] at h
  obtain ⟨p, hp, hpe⟩ := h
  have := scanItems_length cs.length cs (le_refl _) p.1 p.2 (by rw [hp])
  simp only [Prod.mk.injEq] at hpe
  rw [← hpe.2]
  exact this

/-- A run of digits leaves no more than the input. -/
theorem scanDigits_length (cs : List Char) : (scanDigits cs).2.length ≤ cs.length := by
  induction cs with
  | nil => simp [scanDigits]
  | cons c cs ih =>
    simp only [scanDigits]
    split
    · simp only [List.length_cons]
      omega
    · simp

/-- A number takes at least one character. -/
theorem scanNumber_length {cs : List Char} {n : JNumber} {rest : List Char}
    (h : scanNumber cs = some (n, rest)) : rest.length < cs.length := by
  unfold scanNumber at h
  simp only at h
  split at h
  · simp at h
  · rename_i k r1 hi
    split at h
    · simp at h
    · rename_i fr r2 hf
      split at h
      · simp at h
      · rename_i ex r3 he
        simp only [Option.some.injEq, Prod.mk.injEq] at h
        rw [← h.2]
        have h1 : r1.length < cs.length := by
          have hle : (if ((cs.head?.map fun c => c.toNat == 45) == some true) = true
              then cs.tail else cs).length ≤ cs.length := by
            split
            · simp
            · exact le_refl _
          revert hi
          generalize (if ((cs.head?.map fun c => c.toNat == 45) == some true) = true
              then cs.tail else cs) = ds at hle ⊢
          intro hi
          unfold scanIntPart at hi
          split at hi
          · simp at hi
          · rename_i c cs'
            simp only [List.length_cons] at hle
            split at hi
            · simp only [Option.some.injEq, Prod.mk.injEq] at hi
              rw [← hi.2]
              omega
            · split at hi
              · simp only [Option.some.injEq, Prod.mk.injEq] at hi
                have := scanDigits_length cs'
                rw [← hi.2]
                omega
              · simp at hi
        have h2 : r2.length ≤ r1.length := by
          unfold scanFrac at hf
          split at hf
          · simp only [Option.some.injEq, Prod.mk.injEq] at hf
            rw [← hf.2]
          · rename_i c cs'
            split at hf
            · split at hf
              · simp at hf
              · simp only [Option.some.injEq, Prod.mk.injEq] at hf
                have := scanDigits_length cs'
                rw [← hf.2]
                simp only [List.length_cons]
                omega
            · simp only [Option.some.injEq, Prod.mk.injEq] at hf
              rw [← hf.2]
        have h3 : r3.length ≤ r2.length := by
          unfold scanExp at he
          split at he
          · simp only [Option.some.injEq, Prod.mk.injEq] at he
            rw [← he.2]
          · rename_i c cs'
            split at he
            · split at he
              · simp at he
              · rename_i s cs1
                split at he
                · unfold scanExpDigits at he
                  split at he
                  · simp at he
                  · simp only [Option.some.injEq, Prod.mk.injEq] at he
                    have := scanDigits_length cs1
                    rw [← he.2]
                    simp only [List.length_cons]
                    omega
                · unfold scanExpDigits at he
                  split at he
                  · simp at he
                  · simp only [Option.some.injEq, Prod.mk.injEq] at he
                    have := scanDigits_length (s :: cs1)
                    rw [← he.2]
                    simp only [List.length_cons] at this ⊢
                    omega
            · simp only [Option.some.injEq, Prod.mk.injEq] at he
              rw [← he.2]
        omega

/-- A literal word leaves no more than the input. -/
theorem scanWord_length {w cs rest : List Char} (h : scanWord w cs = some rest) :
    rest.length ≤ cs.length := by
  unfold scanWord at h
  split at h
  · simp only [Option.some.injEq] at h
    rw [← h]
    simp
  · simp at h

/-- Whatever the three scanning functions read with some fuel, they read with
any fuel that is at least the number of characters read. -/
theorem scan_fuel (f : Nat) :
    (∀ d cs v rest, scanValue f d cs = some (v, rest) →
      rest.length < cs.length ∧
      ∀ g, cs.length - rest.length ≤ g → scanValue g d cs = some (v, rest)) ∧
    (∀ d cs ms rest, scanMembers f d cs = some (ms, rest) →
      rest.length < cs.length ∧
      ∀ g, cs.length - rest.length ≤ g → scanMembers g d cs = some (ms, rest)) ∧
    (∀ d cs es rest, scanElems f d cs = some (es, rest) →
      rest.length < cs.length ∧
      ∀ g, cs.length - rest.length ≤ g → scanElems g d cs = some (es, rest)) := by
  induction f with
  | zero =>
    refine ⟨?_, ?_, ?_⟩
    · intro d cs v rest h
      simp [scanValue] at h
    · intro d cs ms rest h
      simp [scanMembers] at h
    · intro d cs es rest h
      simp [scanElems] at h
  | succ f ih =>
    obtain ⟨ihV, ihM, ihE⟩ := ih
    refine ⟨?_, ?_, ?_⟩
    · intro d cs v rest h
      rw [scanValue] at h
      split at h
      · simp at h
      · rename_i c rest0 hsk
        have hlen0 := skipSpace_eq_cons hsk
        split at h
        · rename_i hc
          split at h
          · rename_i hd
            split at h
            · simp at h
            · rename_i d' rest1 hsk1
              have hlen1 := skipSpace_eq_cons hsk1
              split at h
              · rename_i hd'
                simp only [Option.some.injEq, Prod.mk.injEq] at h
                obtain ⟨rfl, rfl⟩ := h
                refine ⟨by omega, fun g hg => ?_⟩
                obtain ⟨g', rfl⟩ : ∃ g', g = g' + 1 := ⟨g - 1, by omega⟩
                rw [scanValue]
                simp [hsk, hc, hd, hsk1, hd', if_true]
              · rename_i hd'
                simp only [Option.map_eq_some', Prod.mk.injEq] at h
                obtain ⟨p, hp, rfl, rfl⟩ := h
                obtain ⟨hl, hfuel⟩ := ihM (d + 1) (d' :: rest1) p.1 p.2 hp
                simp only [List.length_cons] at hl hfuel
                refine ⟨by omega, fun g hg => ?_⟩
                obtain ⟨g', rfl⟩ : ∃ g', g = g' + 1 := ⟨g - 1, by omega⟩
                rw [scanValue]
                simp [hsk, hc, hd, hsk1, hd', if_true, if_false, hfuel g' (by omega),
                  Option.map_some']
          · simp at h
        · rename_i hc
          split at h
          · rename_i hb
            split at h
            · rename_i hd
              split at h
              · simp at h
              · rename_i d' rest1 hsk1
                have hlen1 := skipSpace_eq_cons hsk1
                split at h
                · rename_i hd'
                  simp only [Option.some.injEq, Prod.mk.injEq] at h
                  obtain ⟨rfl, rfl⟩ := h
                  refine ⟨by omega, fun g hg => ?_⟩
                  obtain ⟨g', rfl⟩ : ∃ g', g = g' + 1 := ⟨g - 1, by omega⟩
                  rw [scanValue]
                  simp [hsk, hc, hb, hd, hsk1, hd', if_true, if_false]
                · rename_i hd'
                  simp only [Option.map_eq_some', Prod.mk.injEq] at h
                  obtain ⟨p, hp, rfl, rfl⟩ := h
                  obtain ⟨hl, hfuel⟩ := ihE (d + 1) (d' :: rest1) p.1 p.2 hp
                  simp only [List.length_cons] at hl hfuel
                  refine ⟨by omega, fun g hg => ?_⟩
                  obtain ⟨g', rfl⟩ : ∃ g', g = g' + 1 := ⟨g - 1, by omega⟩
                  rw [scanValue]
                  simp [hsk, hc, hb, hd, hsk1, hd', if_true, if_false, hfuel g' (by omega),
                    Option.map_some']
            · simp at h
          · rename_i hb
            have key : ∀ r : List Char, r.length < cs.length →
                (∀ g', scanValue (g' + 1) d cs = some (v, r)) →
                r.length < cs.length ∧
                  ∀ g, cs.length - r.length ≤ g → scanValue g d cs = some (v, r) := by
              intro r hr hall
              refine ⟨hr, fun g hg => ?_⟩
              obtain ⟨g', rfl⟩ : ∃ g', g = g' + 1 := ⟨g - 1, by omega⟩
              exact hall g'
            split at h
            · rename_i hq
              simp only [Option.map_eq_some', Prod.mk.injEq] at h
              obtain ⟨p, hp, rfl, rfl⟩ := h
              have := @scanString_length rest0 p.1 p.2 hp
              refine key _ (by omega) fun g' => ?_
              rw [scanValue]
              simp [hsk, hc, hb, hq, if_true, if_false, hp, Option.map_some']
            · rename_i hq
              split at h
              · rename_i ht
                simp only [Option.map_eq_some', Prod.mk.injEq] at h
                obtain ⟨r, hr, rfl, rfl⟩ := h
                have := scanWord_length hr
                refine key _ (by omega) fun g' => ?_
                rw [scanValue]
                simp [hsk, hc, hb, hq, ht, if_true, if_false, hr, Option.map_some']
              · rename_i ht
                split at h
                · rename_i hf
                  simp only [Option.map_eq_some', Prod.mk.injEq] at h
                  obtain ⟨r, hr, rfl, rfl⟩ := h
                  have := scanWord_length hr
                  refine key _ (by omega) fun g' => ?_
                  rw [scanValue]
                  simp [hsk, hc, hb, hq, ht, hf, if_true, if_false, hr, Option.map_some']
                · rename_i hf
                  split at h
                  · rename_i hn
                    simp only [Option.map_eq_some', Prod.mk.injEq] at h
                    obtain ⟨r, hr, rfl, rfl⟩ := h
                    have := scanWord_length hr
                    refine key _ (by omega) fun g' => ?_
                    rw [scanValue]
                    simp [hsk, hc, hb, hq, ht, hf, hn, if_true, if_false, hr,
                      Option.map_some']
                  · rename_i hn
                    simp only [Option.map_eq_some', Prod.mk.injEq] at h
                    obtain ⟨p, hp, rfl, rfl⟩ := h
                    have := @scanNumber_length (c :: rest0) p.1 p.2 hp
                    simp only [List.length_cons] at this
                    refine key _ (by omega) fun g' => ?_
                    rw [scanValue]
                    simp [hsk, hc, hb, hq, ht, hf, hn, if_true, if_false, hp,
                      Option.map_some']
    · intro d cs ms rest h
      rw [scanMembers] at h
      split at h
      · simp at h
      · rename_i q rest0 hsk
        have hlen0 := skipSpace_eq_cons hsk
        split at h
        · rename_i hq
          split at h
          · simp at h
          · rename_i key rest1 hkey
            have hlen1 := scanString_length hkey
            split at h
            · simp at h
            · rename_i colon rest2 hsk2
              have hlen2 := skipSpace_eq_cons hsk2
              split at h
              · rename_i hcolon
                split at h
                · simp at h
                · rename_i v rest3 hv
                  obtain ⟨hl3, hfuel3⟩ := ihV d rest2 v rest3 hv
                  split at h
                  · simp at h
                  · rename_i sep rest4 hsk4
                    have hlen4 := skipSpace_eq_cons hsk4
                    split at h
                    · rename_i hsep
                      simp only [Option.some.injEq, Prod.mk.injEq] at h
                      obtain ⟨rfl, rfl⟩ := h
                      refine ⟨by omega, fun g hg => ?_⟩
                      obtain ⟨g', rfl⟩ : ∃ g', g = g' + 1 := ⟨g - 1, by omega⟩
                      rw [scanMembers]
                      simp [hsk, hq, hkey, hsk2, hcolon, hfuel3 g' (by omega), hsk4, hsep]
                    · rename_i hsep
                      split at h
                      · rename_i hcomma
                        simp only [Option.map_eq_some', Prod.mk.injEq] at h
                        obtain ⟨p, hp, rfl, rfl⟩ := h
                        obtain ⟨hl, hfuel⟩ := ihM d rest4 p.1 p.2 hp
                        refine ⟨by omega, fun g hg => ?_⟩
                        obtain ⟨g', rfl⟩ : ∃ g', g = g' + 1 := ⟨g - 1, by omega⟩
                        rw [scanMembers]
                        simp [hsk, hq, hkey, hsk2, hcolon, hfuel3 g' (by omega), hsk4, hsep,
                          hcomma, hfuel g' (by omega)]
                      · simp at h
              · simp at h
        · simp at h
    · intro d cs es rest h
      rw [scanElems] at h
      split at h
      · simp at h
      · rename_i v rest0 hv
        obtain ⟨hl0, hfuel0⟩ := ihV d cs v rest0 hv
        split at h
        · simp at h
        · rename_i sep rest1 hsk1
          have hlen1 := skipSpace_eq_cons hsk1
          split at h
          · rename_i hsep
            simp only [Option.some.injEq, Prod.mk.injEq] at h
            obtain ⟨rfl, rfl⟩ := h
            refine ⟨by omega, fun g hg => ?_⟩
            obtain ⟨g', rfl⟩ : ∃ g', g = g' + 1 := ⟨g - 1, by omega⟩
            rw [scanElems]
            simp [hfuel0 g' (by omega), hsk1, hsep]
          · rename_i hsep
            split at h
            · rename_i hcomma
              simp only [Option.map_eq_some', Prod.mk.injEq] at h
              obtain ⟨p, hp, rfl, rfl⟩ := h
              obtain ⟨hl, hfuel⟩ := ihE d rest1 p.1 p.2 hp
              refine ⟨by omega, fun g hg => ?_⟩
              obtain ⟨g', rfl⟩ : ∃ g', g = g' + 1 := ⟨g - 1, by omega⟩
              rw [scanElems]
              simp [hfuel0 g' (by omega), hsk1, hsep, hcomma, hfuel g' (by omega)]
            · simp at h

/-- The fuel of `readValue` is enough: what `scanValue` reads from a text with
any fuel at all, it reads with the fuel `readValue` gives it. -/
theorem scanValue_fuel_enough (f d : Nat) (cs : List Char) (r : JSON × List Char)
    (h : scanValue f d cs = some r) : scanValue (cs.length + 1) d cs = some r :=
  ((scan_fuel f).1 d cs r.1 r.2 h).2 (cs.length + 1) (by omega)

/-- More fuel does not change what `scanValue` reads. -/
theorem scanValue_fuel_mono (f g d : Nat) (cs : List Char) (r : JSON × List Char)
    (h : scanValue f d cs = some r) (hg : cs.length + 1 ≤ g) : scanValue g d cs = some r :=
  ((scan_fuel f).1 d cs r.1 r.2 h).2 g (by omega)

/-! ## Decoding a struct, field by field -/

/-- A key that selects a field has the folded form of the field name. -/
theorem keyMatches_fold {n k : String} (h : keyMatches n k = true) : foldName k = foldName n := by
  unfold keyMatches at h
  simp only [Bool.or_eq_true, beq_iff_eq] at h
  rcases h with h | h
  · rw [h]
  · exact h

/-- A key selects at most one of two fields whose names differ after folding. -/
theorem keyMatches_disjoint {a b k : String} (hne : foldName a ≠ foldName b)
    (h : keyMatches a k = true) : keyMatches b k = false := by
  cases hb : keyMatches b k with
  | false => rfl
  | true => exact absurd ((keyMatches_fold h).symm.trans (keyMatches_fold hb)) hne

/-- Values applied in two runs. -/
theorem runVals_append {α : Type} (upd : JSON → α → α × Bool) (xs ys : List JSON) (a : α) :
    runVals upd (xs ++ ys) a =
      ((runVals upd ys (runVals upd xs a).1).1,
        (runVals upd xs a).2 || (runVals upd ys (runVals upd xs a).1).2) := by
  induction xs generalizing a with
  | nil => simp [runVals]
  | cons x xs ih => simp [runVals, ih, Bool.or_assoc]

/-- The members of an object applied to a struct, seen from one of its fields:
only the values under keys selecting the field count. -/
theorem lens_foldl {S α : Type} {setField : String → JSON → S → S × Bool} {name : String}
    {get : S → α} {upd : JSON → α → α × Bool} (L : FieldLens setField name get upd)
    (ms : List (String × JSON)) (acc : S × Bool) :
    get (ms.foldl (storeMember setField) acc).1 = (runVals upd (valuesAt name ms) (get acc.1)).1 ∧
    ((ms.foldl (storeMember setField) acc).2 = false →
      acc.2 = false ∧ (runVals upd (valuesAt name ms) (get acc.1)).2 = false) := by
  induction ms generalizing acc with
  | nil => simp [runVals, valuesAt]
  | cons kv ms ih =>
    have ih' := ih (storeMember setField acc kv)
    simp only [List.foldl_cons]
    cases hk : keyMatches name kv.1 with
    | true =>
      have h1 := L.hit kv.1 kv.2 acc.1 hk
      have h2 := L.hitErr kv.1 kv.2 acc.1 hk
      simp only [valuesAt, hk, if_true, runVals]
      simp only [storeMember] at ih' ⊢
      rw [h1] at ih'
      refine ⟨ih'.1, fun h => ?_⟩
      have := ih'.2 h
      rw [h2] at this
      simp only [Bool.or_eq_false_iff] at this ⊢
      exact ⟨this.1.1, this.1.2, this.2⟩
    | false =>
      have h1 := L.miss kv.1 kv.2 acc.1 hk
      simp only [valuesAt, hk]
      simp only [storeMember] at ih' ⊢
      rw [h1] at ih'
      refine ⟨ih'.1, fun h => ?_⟩
      have := ih'.2 h
      simp only [Bool.or_eq_false_iff] at this
      exact ⟨this.1.1, this.2⟩

/-- A JSON value stored into a struct, seen from one of its fields. -/
theorem lens_store {S α : Type} {setField : String → JSON → S → S × Bool} {name : String}
    {get : S → α} {upd : JSON → α → α × Bool} (L : FieldLens setField name get upd)
    (v : JSON) (s : S) :
    get (storeStruct setField v s).1 = (runVals upd (valuesAt name v.members) (get s)).1 ∧
    ((storeStruct setField v s).2 = false →
      (runVals upd (valuesAt name v.members) (get s)).2 = false) := by
  cases v with
  | obj ms =>
    have := lens_foldl L ms (s, false)
    simp only [storeStruct, JSON.members]
    exact ⟨this.1, fun h => (this.2 h).2⟩
  | null => simp [storeStruct, JSON.members, valuesAt, runVals]
  | bool b => simp [storeStruct, JSON.members, valuesAt, runVals]
  | num n => simp [storeStruct, JSON.members, valuesAt, runVals]
  | str s' => simp [storeStruct, JSON.members, valuesAt, runVals]
  | arr es => simp [storeStruct, JSON.members, valuesAt, runVals]

/-- Several JSON values stored into a struct one after the other, seen from one of its fields. -/
theorem lens_runVals {S α : Type} {setField : String → JSON → S → S × Bool} {name : String}
    {get : S → α} {upd : JSON → α → α × Bool} (L : FieldLens setField name get upd)
    (vs : List JSON) (s : S) :
    get (runVals (storeStruct setField) vs s).1 =
      (runVals upd (vs.flatMap fun v => valuesAt name v.members) (get s)).1 ∧
    ((runVals (storeStruct setField) vs s).2 = false →
      (runVals upd (vs.flatMap fun v => valuesAt name v.members) (get s)).2 = false) := by
  induction vs generalizing s with
  | nil => simp [runVals]
  | cons v vs ih =>
    have hv := lens_store L v s
    have ih' := ih (storeStruct setField v s).1
    simp only [runVals, List.flatMap_cons, runVals_append]
    rw [← hv.1]
    refine ⟨ih'.1, fun h => ?_⟩
    simp only [Bool.or_eq_false_iff] at h ⊢
    exact ⟨hv.2 h.1, ih'.2 h.2⟩

/-- Two levels: a leaf field of a section of the struct decoded from a document. -/
theorem lens_leaf {S T α : Type} {set1 : String → JSON → S → S × Bool}
    {set2 : String → JSON → T → T × Bool} {sect field : String}
    {get1 : S → T} {get2 : T → α} {upd : JSON → α → α × Bool}
    (L1 : FieldLens set1 sect get1 (storeStruct set2)) (L2 : FieldLens set2 field get2 upd)
    (doc : JSON) (s : S) :
    get2 (get1 (storeStruct set1 doc s).1) =
      (runVals upd (leafValues doc sect field) (get2 (get1 s))).1 ∧
    ((storeStruct set1 doc s).2 = false →
      (runVals upd (leafValues doc sect field) (get2 (get1 s))).2 = false) := by
  have h1 := lens_store L1 doc s
  have h2 := lens_runVals L2 (valuesAt sect doc.members) (get1 s)
  unfold leafValues
  rw [h1.1]
  exact ⟨h2.1, fun h => h2.2 (h1.2 h)⟩


/-! ### The fields of the configuration structures -/

/-- Field `ListenAddrs` of `NetworkConfig` under `NetworkConfig.setField`. -/
theorem lens_Network_ListenAddrs :
    FieldLens NetworkConfig.setField "ListenAddrs" (fun c => c.ListenAddrs) storeStrings where
  hit := fun k v s hk => by
    simp [NetworkConfig.setField, hk]
  hitErr := fun k v s hk => by
    simp [NetworkConfig.setField, hk]
  miss := fun k v s hk => by
    simp only [NetworkConfig.setField, hk, Bool.false_eq_true, ↓reduceIte]
    repeat' split
    all_goals rfl

/-- Field `AnnounceAddrs` of `NetworkConfig` under `NetworkConfig.setField`. -/
theorem lens_Network_AnnounceAddrs :
    FieldLens NetworkConfig.setField "AnnounceAddrs" (fun c => c.AnnounceAddrs) storeStrings where
  hit := fun k v s hk => by
    have h0 := keyMatches_disjoint (b := "ListenAddrs") (by decide) hk
    simp [NetworkConfig.setField, hk, h0]
  hitErr := fun k v s hk => by
    have h0 := keyMatches_disjoint (b := "ListenAddrs") (by decide) hk
    simp [NetworkConfig.setField, hk, h0]
  miss := fun k v s hk => by
    simp only [NetworkConfig.setField, hk, Bool.false_eq_true, ↓reduceIte]
    repeat' split
    all_goals rfl

/-- Field `ConnMgrLo` of `ConnMgrConfig` under `ConnMgrConfig.setField`. -/
theorem lens_ConnMgr_ConnMgrLo (D : Deps) :
    FieldLens (ConnMgrConfig.setField D) "ConnMgrLo" (fun c => c.ConnMgrLo) (storeInt D.intSize.bits) where
  hit := fun k v s hk => by
    simp [ConnMgrConfig.setField, hk]
  hitErr := fun k v s hk => by
    simp [ConnMgrConfig.setField, hk]
  miss := fun k v s hk => by
    simp only [ConnMgrConfig.setField, hk, Bool.false_eq_true, ↓reduceIte]
    repeat' split
    all_goals rfl

/-- Field `ConnMgrHi` of `ConnMgrConfig` under `ConnMgrConfig.setField`. -/
theorem lens_ConnMgr_ConnMgrHi (D : Deps) :
    FieldLens (ConnMgrConfig.setField D) "ConnMgrHi" (fun c => c.ConnMgrHi) (storeInt D.intSize.bits) where
  hit := fun k v s hk => by
    have h0 := keyMatches_disjoint (b := "ConnMgrLo") (by decide) hk
    simp [ConnMgrConfig.setField, hk, h0]
  hitErr := fun k v s hk => by
    have h0 := keyMatches_disjoint (b := "ConnMgrLo") (by decide) hk
    simp [ConnMgrConfig.setField, hk, h0]
  miss := fun k v s hk => by
    simp only [ConnMgrConfig.setField, hk, Bool.false_eq_true, ↓reduceIte]
    repeat' split
    all_goals rfl

/-- Field `ConnMgrGrace` of `ConnMgrConfig` under `ConnMgrConfig.setField`. -/
theorem lens_ConnMgr_ConnMgrGrace (D : Deps) :
    FieldLens (ConnMgrConfig.setField D) "ConnMgrGrace" (fun c => c.ConnMgrGrace) (storeInt 64) where
  hit := fun k v s hk => by
    have h0 := keyMatches_disjoint (b := "ConnMgrLo") (by decide) hk
    have h1 := keyMatches_disjoint (b := "ConnMgrHi") (by decide) hk
    simp [ConnMgrConfig.setField, hk, h0, h1]
  hitErr := fun k v s hk => by
    have h0 := keyMatches_disjoint (b := "ConnMgrLo") (by decide) hk
    have h1 := keyMatches_disjoint (b := "ConnMgrHi") (by decide) hk
    simp [ConnMgrConfig.setField, hk, h0, h1]
  miss := fun k v s hk => by
    simp only [ConnMgrConfig.setField, hk, Bool.false_eq_true, ↓reduceIte]
    repeat' split
    all_goals rfl

/-- Field `Enabled` of `RelayConfig` under `RelayConfig.setField`. -/
theorem lens_Relay_Enabled (D : Deps) :
    FieldLens (RelayConfig.setField D) "Enabled" (fun c => c.Enabled) storeBool where
  hit := fun k v s hk => by
    simp [RelayConfig.setField, hk]
  hitErr := fun k v s hk => by
    simp [RelayConfig.setField, hk]
  miss := fun k v s hk => by
    simp only [RelayConfig.setField, hk, Bool.false_eq_true, ↓reduceIte]
    repeat' split
    all_goals rfl

/-- Field `Resources` of `RelayConfig` under `RelayConfig.setField`. -/
theorem lens_Relay_Resources (D : Deps) :
    FieldLens (RelayConfig.setField D) "Resources" (fun c => c.Resources) D.unmarshalResources where
  hit := fun k v s hk => by
    have h0 := keyMatches_disjoint (b := "Enabled") (by decide) hk
    simp [RelayConfig.setField, hk, h0]
  hitErr := fun k v s hk => by
    have h0 := keyMatches_disjoint (b := "Enabled") (by decide) hk
    simp [RelayConfig.setField, hk, h0]
  miss := fun k v s hk => by
    simp only [RelayConfig.setField, hk, Bool.false_eq_true, ↓reduceIte]
    repeat' split
    all_goals rfl

/-- Field `Enabled` of `NATServiceConfig` under `NATServiceConfig.setField`. -/
theorem lens_NATService_Enabled :
    FieldLens NATServiceConfig.setField "Enabled" (fun c => c.Enabled) storeBool where
  hit := fun k v s hk => by
    simp [NATServiceConfig.setField, hk]
  hitErr := fun k v s hk => by
    simp [NATServiceConfig.setField, hk]
  miss := fun k v s hk => by
    simp only [NATServiceConfig.setField, hk, Bool.false_eq_true, ↓reduceIte]

/-- Field `AllowPeers` of `ACLConfig` under `ACLConfig.setField`. -/
theorem lens_ACL_AllowPeers :
    FieldLens ACLConfig.setField "AllowPeers" (fun c => c.AllowPeers) storeStrings where
  hit := fun k v s hk => by
    simp [ACLConfig.setField, hk]
  hitErr := fun k v s hk => by
    simp [ACLConfig.setField, hk]
  miss := fun k v s hk => by
    simp only [ACLConfig.setField, hk, Bool.false_eq_true, ↓reduceIte]
    repeat' split
    all_goals rfl

/-- Field `AllowSubnets` of `ACLConfig` under `ACLConfig.setField`. -/
theorem lens_ACL_AllowSubnets :
    FieldLens ACLConfig.setField "AllowSubnets" (fun c => c.AllowSubnets) storeStrings where
  hit := fun k v s hk => by
    have h0 := keyMatches_disjoint (b := "AllowPeers") (by decide) hk
    simp [ACLConfig.setField, hk, h0]
  hitErr := fun k v s hk => by
    have h0 := keyMatches_disjoint (b := "AllowPeers") (by decide) hk
    simp [ACLConfig.setField, hk, h0]
  miss := fun k v s hk => by
    simp only [ACLConfig.setField, hk, Bool.false_eq_true, ↓reduceIte]
    repeat' split
    all_goals rfl

/-- Field `PprofPort` of `DaemonConfig` under `DaemonConfig.setField`. -/
theorem lens_Daemon_PprofPort (D : Deps) :
    FieldLens (DaemonConfig.setField D) "PprofPort" (fun c => c.PprofPort) (storeInt D.intSize.bits) where
  hit := fun k v s hk => by
    simp [DaemonConfig.setField, hk]
  hitErr := fun k v s hk => by
    simp [DaemonConfig.setField, hk]
  miss := fun k v s hk => by
    simp only [DaemonConfig.setField, hk, Bool.false_eq_true, ↓reduceIte]

/-- Section `Network` of `Config` under `Config.setField`. -/
theorem lens_Network (D : Deps) :
    FieldLens (Config.setField D) "Network" (fun c => c.Network) (storeStruct NetworkConfig.setField) where
  hit := fun k v s hk => by
    simp [Config.setField, hk]
  hitErr := fun k v s hk => by
    simp [Config.setField, hk]
  miss := fun k v s hk => by
    simp only [Config.setField, hk, Bool.false_eq_true, ↓reduceIte]
    repeat' split
    all_goals rfl

/-- Section `ConnMgr` of `Config` under `Config.setField`. -/
theorem lens_ConnMgr (D : Deps) :
    FieldLens (Config.setField D) "ConnMgr" (fun c => c.ConnMgr) (storeStruct (ConnMgrConfig.setField D)) where
  hit := fun k v s hk => by
    have h0 := keyMatches_disjoint (b := "Network") (by decide) hk
    simp [Config.setField, hk, h0]
  hitErr := fun k v s hk => by
    have h0 := keyMatches_disjoint (b := "Network") (by decide) hk
    simp [Config.setField, hk, h0]
  miss := fun k v s hk => by
    simp only [Config.setField, hk, Bool.false_eq_true, ↓reduceIte]
    repeat' split
    all_goals rfl

/-- Section `Relay` of `Config` under `Config.setField`. -/
theorem lens_Relay (D : Deps) :
    FieldLens (Config.setField D) "Relay" (fun c => c.Relay) (storeStruct (RelayConfig.setField D)) where
  hit := fun k v s hk => by
    have h0 := keyMatches_disjoint (b := "Network") (by decide) hk
    have h1 := keyMatches_disjoint (b := "ConnMgr") (by decide) hk
    simp [Config.setField, hk, h0, h1]
  hitErr := fun k v s hk => by
    have h0 := keyMatches_disjoint (b := "Network") (by decide) hk
    have h1 := keyMatches_disjoint (b := "ConnMgr") (by decide) hk
    simp [Config.setField, hk, h0, h1]
  miss := fun k v s hk => by
    simp only [Config.setField, hk, Bool.false_eq_true, ↓reduceIte]
    repeat' split
    all_goals rfl

/-- Section `NATService` of `Config` under `Config.setField`. -/
theorem lens_NATService (D : Deps) :
    FieldLens (Config.setField D) "NATService" (fun c => c.NATService) (storeStruct NATServiceConfig.setField) where
  hit := fun k v s hk => by
    have h0 := keyMatches_disjoint (b := "Network") (by decide) hk
    have h1 := keyMatches_disjoint (b := "ConnMgr") (by decide) hk
    have h2 := keyMatches_disjoint (b := "Relay") (by decide) hk
    simp [Config.setField, hk, h0, h1, h2]
  hitErr := fun k v s hk => by
    have h0 := keyMatches_disjoint (b := "Network") (by decide) hk
    have h1 := keyMatches_disjoint (b := "ConnMgr") (by decide) hk
    have h2 := keyMatches_disjoint (b := "Relay") (by decide) hk
    simp [Config.setField, hk, h0, h1, h2]
  miss := fun k v s hk => by
    simp only [Config.setField, hk, Bool.false_eq_true, ↓reduceIte]
    repeat' split
    all_goals rfl

/-- Section `ACL` of `Config` under `Config.setField`. -/
theorem lens_ACL (D : Deps) :
    FieldLens (Config.setField D) "ACL" (fun c => c.ACL) (storeStruct ACLConfig.setField) where
  hit := fun k v s hk => by
    have h0 := keyMatches_disjoint (b := "Network") (by decide) hk
    have h1 := keyMatches_disjoint (b := "ConnMgr") (by decide) hk
    have h2 := keyMatches_disjoint (b := "Relay") (by decide) hk
    have h3 := keyMatches_disjoint (b := "NATService") (by decide) hk
    simp [Config.setField, hk, h0, h1, h2, h3]
  hitErr := fun k v s hk => by
    have h0 := keyMatches_disjoint (b := "Network") (by decide) hk
    have h1 := keyMatches_disjoint (b := "ConnMgr") (by decide) hk
    have h2 := keyMatches_disjoint (b := "Relay") (by decide) hk
    have h3 := keyMatches_disjoint (b := "NATService") (by decide) hk
    simp [Config.setField, hk, h0, h1, h2, h3]
  miss := fun k v s hk => by
    simp only [Config.setField, hk, Bool.false_eq_true, ↓reduceIte]
    repeat' split
    all_goals rfl

/-- Section `Daemon` of `Config` under `Config.setField`. -/
theorem lens_Daemon (D : Deps) :
    FieldLens (Config.setField D) "Daemon" (fun c => c.Daemon) (storeStruct (DaemonConfig.setField D)) where
  hit := fun k v s hk => by
    have h0 := keyMatches_disjoint (b := "Network") (by decide) hk
    have h1 := keyMatches_disjoint (b := "ConnMgr") (by decide) hk
    have h2 := keyMatches_disjoint (b := "Relay") (by decide) hk
    have h3 := keyMatches_disjoint (b := "NATService") (by decide) hk
    have h4 := keyMatches_disjoint (b := "ACL") (by decide) hk
    simp [Config.setField, hk, h0, h1, h2, h3, h4]
  hitErr := fun k v s hk => by
    have h0 := keyMatches_disjoint (b := "Network") (by decide) hk
    have h1 := keyMatches_disjoint (b := "ConnMgr") (by decide) hk
    have h2 := keyMatches_disjoint (b := "Relay") (by decide) hk
    have h3 := keyMatches_disjoint (b := "NATService") (by decide) hk
    have h4 := keyMatches_disjoint (b := "ACL") (by decide) hk
    simp [Config.setField, hk, h0, h1, h2, h3, h4]
  miss := fun k v s hk => by
    simp only [Config.setField, hk, Bool.false_eq_true, ↓reduceIte]
    repeat' split
    all_goals rfl

/-! ## What repeated values leave in a field -/

/-- An empty list has no last non-null value. -/
theorem lastNonNull_nil : lastNonNull [] = none := rfl

/-- The last non-null value of a list, by its head and tail. -/
theorem lastNonNull_cons (v : JSON) (vs : List JSON) :
    lastNonNull (v :: vs) =
      match lastNonNull vs with
      | some w => some w
      | none => if v.isNull then none else some v := by
  unfold lastNonNull
  cases hv : v.isNull with
  | true => 
    simp only [List.filter_cons, hv, Bool.not_true, Bool.false_eq_true, if_false]
    cases (List.filter (fun v => !v.isNull) vs).getLast? <;> rfl
  | false =>
    simp only [List.filter_cons, hv, Bool.not_false, if_true, List.getLast?_cons]
    cases (List.filter (fun v => !v.isNull) vs).getLast? <;> rfl

/-- Only `null` is null. -/
theorem isNull_eq_true {v : JSON} (h : v.isNull = true) : v = JSON.null := by
  cases v <;> simp_all [JSON.isNull]

/-- After values stored without error into a scalar: what the last non-null
value denotes, and the old content if every value was `null`. -/
theorem runVals_scalar {α : Type} {upd : JSON → α → α × Bool} {den : JSON → Option α}
    (H : ScalarStore upd den) (vs : List JSON) (a : α)
    (h : (runVals upd vs a).2 = false) :
    (∀ v, lastNonNull vs = some v → den v = some (runVals upd vs a).1) ∧
    (lastNonNull vs = none → (runVals upd vs a).1 = a) := by
  induction vs generalizing a with
  | nil => simp [lastNonNull_nil, runVals]
  | cons v vs ih =>
    simp only [runVals, Bool.or_eq_false_iff] at h ⊢
    have ih' := ih (upd v a).1 h.2
    rw [lastNonNull_cons]
    cases hl : lastNonNull vs with
    | some w =>
      simp only [Option.some.injEq, reduceCtorEq, false_implies, and_true]
      intro v' hv'
      exact ih'.1 v' (hl.trans (congrArg some hv'))
    | none =>
      have hr := ih'.2 hl
      cases hv : v.isNull with
      | true =>
        have := isNull_eq_true hv
        subst this
        rw [H.null] at hr ⊢
        simpa using hr
      | false =>
        simp only [Bool.false_eq_true, if_false, Option.some.injEq, reduceCtorEq, false_implies,
          and_true]
        intro v' hv'
        subst hv'
        rw [hr]
        exact H.typed v a hv h.1

/-- Integers are stored as the integer literal denotes. -/
theorem scalar_storeInt (bits : Nat) : ScalarStore (storeInt bits) JSON.asInt where
  null := fun a => rfl
  typed := fun v a hv h => by
    cases v with
    | num n =>
      simp only [storeInt, JSON.asInt] at h ⊢
      split at h
      · rename_i hc
        simp [hc.1, hc.2.1, hc.2.2]
      · simp at h
    | null => simp [JSON.isNull] at hv
    | bool b => simp [storeInt] at h
    | str s => simp [storeInt] at h
    | arr es => simp [storeInt] at h
    | obj ms => simp [storeInt] at h

/-- Booleans are stored as the literal denotes. -/
theorem scalar_storeBool : ScalarStore storeBool JSON.asBool where
  null := fun a => rfl
  typed := fun v a hv h => by
    cases v with
    | bool b => simp [storeBool, JSON.asBool]
    | null => simp [JSON.isNull] at hv
    | num n => simp [storeBool] at h
    | str s => simp [storeBool] at h
    | arr es => simp [storeBool] at h
    | obj ms => simp [storeBool] at h

/-- An integer stored without error lies in the range of the field. -/
theorem storeInt_fits (bits : Nat) (v : JSON) (a : Int) (hv : v.isNull = false)
    (h : (storeInt bits v a).2 = false) : fitsInt bits (storeInt bits v a).1 = true := by
  cases v with
  | num n =>
    simp only [storeInt] at h ⊢
    split at h
    · rename_i hc
      simp [hc]
    · simp at h
  | null => simp [JSON.isNull] at hv
  | bool b => simp [storeInt] at h
  | str s => simp [storeInt] at h
  | arr es => simp [storeInt] at h
  | obj ms => simp [storeInt] at h

/-- String elements overwrite the cells they are decoded into. -/
theorem storeElems_strings (es : List JSON) (l : List String) (h : stringsOf es = some l)
    (cells : List String) :
    storeElems es cells = (l, cells.drop es.length, false) := by
  induction es generalizing l cells with
  | nil =>
    simp only [stringsOf, Option.some.injEq] at h
    subst h
    simp [storeElems]
  | cons e es ih =>
    cases e with
    | str s =>
      simp only [stringsOf, Option.map_eq_some'] at h
      obtain ⟨l', hl', rfl⟩ := h
      simp [storeElems, storeString, ih l' hl', List.drop_succ_cons, List.tail_drop]
    | null => simp [stringsOf] at h
    | bool b => simp [stringsOf] at h
    | num n => simp [stringsOf] at h
    | arr es' => simp [stringsOf] at h
    | obj ms => simp [stringsOf] at h

/-- A list of string values denotes its strings. -/
theorem stringsOf_map_str (l : List String) : stringsOf (l.map JSON.str) = some l := by
  induction l with
  | nil => rfl
  | cons s l ih => simp [stringsOf, ih]

/-- An array of strings stored into a slice: the strings replace the elements,
whatever they were, without error. -/
theorem storeStrings_strings (es : List JSON) (l : List String) (h : stringsOf es = some l)
    (old : GoSlice) :
    (storeStrings (JSON.arr es) old).1.elems = l ∧ (storeStrings (JSON.arr es) old).2 = false := by
  cases es with
  | nil =>
    simp only [stringsOf, Option.some.injEq] at h
    subst h
    simp [storeStrings, GoSlice.nil]
  | cons e es =>
    simp [storeStrings, storeElems_strings (e :: es) l h]

/-- The value `null` makes a slice nil. -/
theorem storeStrings_null (old : GoSlice) : storeStrings JSON.null old = (GoSlice.nil, false) := rfl

/-- After values stored into a slice, the last one decides: an array of strings
gives these strings, `null` the nil slice. -/
theorem runVals_storeStrings (vs : List JSON) (a : GoSlice) (v : JSON)
    (hv : vs.getLast? = some v) :
    (∀ l, v.asStrings = some l → (runVals storeStrings vs a).1.elems = l) ∧
    (v = JSON.null → (runVals storeStrings vs a).1.elems = []) := by
  induction vs generalizing a with
  | nil => simp at hv
  | cons w vs ih =>
    cases vs with
    | nil =>
      simp only [List.getLast?_singleton, Option.some.injEq] at hv
      subst hv
      simp only [runVals]
      constructor
      · intro l hl
        cases w with
        | arr es => exact (storeStrings_strings es l hl a).1
        | null => simp [JSON.asStrings] at hl
        | bool b => simp [JSON.asStrings] at hl
        | num n => simp [JSON.asStrings] at hl
        | str s => simp [JSON.asStrings] at hl
        | obj ms => simp [JSON.asStrings] at hl
      · intro hw
        subst hw
        rfl
    | cons x xs =>
      have hv' : (x :: xs).getLast? = some v := by
        rw [← hv, List.getLast?_cons_cons]
      have := ih (storeStrings w a).1 hv'
      simpa [runVals] using this

/-! ## Reading back a written document -/

/-- The escape written for a control character names its code. -/
theorem hex4_hexDigit : ∀ n, n < 32 →
    hex4 (Char.ofNat 48) (Char.ofNat 48) (hexDigit (n / 16)) (hexDigit (n % 16)) = some n := by
  decide

/-- A quote ends the body of a string. -/
theorem scanItems_quote (rest : List Char) :
    scanItems (Char.ofNat 34 :: rest) = some ([], rest) := by
  rw [scanItems.eq_def]
  have h34 : (Char.ofNat 34).toNat = 34 := by decide
  simp [h34]

/-- A character other than quote, backslash and control characters stands for itself. -/
theorem scanItems_plain (c : Char) (rest : List Char) (h34 : c.toNat ≠ 34) (h32 : ¬ c.toNat < 32)
    (h92 : c.toNat ≠ 92) :
    scanItems (c :: rest) = (scanItems rest).map fun p => (StrItem.char c :: p.1, p.2) := by
  rw [scanItems.eq_def]
  simp [h34, h32, h92]

/-- A backslash and a letter other than `u`. -/
theorem scanItems_escape (e : Char) (rest : List Char) (hu : e.toNat ≠ 117) :
    scanItems (Char.ofNat 92 :: e :: rest) =
      match unescape e with
      | none => none
      | some ch => (scanItems rest).map fun p => (StrItem.char ch :: p.1, p.2) := by
  rw [scanItems.eq_def]
  have h92 : (Char.ofNat 92).toNat = 92 := by decide
  simp [h92, hu]

/-- A backslash, `u` and four characters. -/
theorem scanItems_unit (h1 h2 h3 h4 : Char) (rest : List Char) :
    scanItems (Char.ofNat 92 :: Char.ofNat 117 :: h1 :: h2 :: h3 :: h4 :: rest) =
      match hex4 h1 h2 h3 h4 with
      | none => none
      | some r => (scanItems rest).map fun p => (StrItem.unit r :: p.1, p.2) := by
  rw [scanItems.eq_def]
  have h92 : (Char.ofNat 92).toNat = 92 := by decide
  have h117 : (Char.ofNat 117).toNat = 117 := by decide
  simp [h92, h117]

/-- The scanner reads a written string body back, piece by piece. -/
theorem scanItems_quoteBody (s rest : List Char) :
    scanItems (quoteBody s ++ Char.ofNat 34 :: rest) = some (s.map itemOf, rest) := by
  induction s with
  | nil => exact scanItems_quote rest
  | cons c s ih =>
    by_cases h1 : c.toNat = 34 ∨ c.toNat = 92
    · have hu : c.toNat ≠ 117 := by omega
      have hlt : ¬ c.toNat < 32 := by omega
      have he : unescape c = some c := by
        unfold unescape
        rw [if_pos (by omega)]
      have : quoteBody (c :: s) ++ Char.ofNat 34 :: rest
          = Char.ofNat 92 :: c :: (quoteBody s ++ Char.ofNat 34 :: rest) := by
        simp [quoteBody, quoteChar, h1]
      rw [this, scanItems_escape _ _ hu, he]
      simp [ih, itemOf, hlt]
    · by_cases h2 : c.toNat < 32
      · have : quoteBody (c :: s) ++ Char.ofNat 34 :: rest
            = Char.ofNat 92 :: Char.ofNat 117 :: Char.ofNat 48 :: Char.ofNat 48 ::
                hexDigit (c.toNat / 16) :: hexDigit (c.toNat % 16) ::
                (quoteBody s ++ Char.ofNat 34 :: rest) := by
          simp [quoteBody, quoteChar, h1, h2]
        rw [this, scanItems_unit, hex4_hexDigit _ h2]
        simp [ih, itemOf, h2]
      · have h34 : c.toNat ≠ 34 := fun h => h1 (Or.inl h)
        have h92 : c.toNat ≠ 92 := fun h => h1 (Or.inr h)
        have : quoteBody (c :: s) ++ Char.ofNat 34 :: rest
            = c :: (quoteBody s ++ Char.ofNat 34 :: rest) := by
          simp [quoteBody, quoteChar, h1, h2]
        rw [this, scanItems_plain _ _ h34 h2 h92]
        simp [ih, itemOf, h2]

/-- The pieces read from a written string body unquote to the string. -/
theorem unquote_itemOf (s : List Char) : unquote (s.map itemOf) = s := by
  induction s with
  | nil => rfl
  | cons c s ih =>
    by_cases h : c.toNat < 32
    · have hs : isSurrogate c.toNat = false := by
        simp only [isSurrogate, Bool.and_eq_false_iff, decide_eq_false_iff_not]
        left
        omega
      cases s with
      | nil => simp [itemOf, h, unquote, hs]
      | cons c' s' =>
        by_cases h' : c'.toNat < 32
        · simp only [List.map_cons, itemOf, h, h', if_true, unquote, hs, Bool.false_eq_true,
            if_false, Char.ofNat_toNat, List.cons.injEq, true_and]
          simpa [itemOf, h'] using ih
        · simp only [List.map_cons, itemOf, h, h', if_true, if_false, unquote, hs,
            Bool.false_eq_true, Char.ofNat_toNat, List.cons.injEq, true_and]
          simpa [itemOf, h', unquote] using ih
    · simp only [List.map_cons, itemOf, h, if_false, unquote, List.cons.injEq, true_and]
      exact ih

/-- A written string is read back as the string. -/
theorem scanString_quoteBody (s : String) (rest : List Char) :
    scanString (quoteBody s.data ++ Char.ofNat 34 :: rest) = some (s, rest) := by
  simp [scanString, scanItems_quoteBody, unquote_itemOf]

/-- Nothing is skipped before a character that is not a space. -/
theorem skipSpace_cons (c : Char) (rest : List Char) (h : isSpace c = false) :
    skipSpace (c :: rest) = c :: rest := by
  simp [skipSpace, h]

/-- A written string starts with a quote. -/
theorem quoteString_append (s : String) (rest : List Char) :
    quoteString s ++ rest = Char.ofNat 34 :: (quoteBody s.data ++ Char.ofNat 34 :: rest) := by
  simp [quoteString]

/-- A written string is scanned as a string value. -/
theorem scanValue_string (f d : Nat) (s : String) (rest : List Char) :
    scanValue (f + 1) d (quoteString s ++ rest) = some (JSON.str s, rest) := by
  have h34 : (Char.ofNat 34).toNat = 34 := by decide
  rw [quoteString_append, scanValue, skipSpace_cons _ _ (by decide)]
  simp [h34, scanString_quoteBody]

/-- Written strings, comma-separated and closed by a bracket, are scanned as string elements. -/
theorem scanElems_strings (l : List String) (hl : l ≠ []) :
    ∀ (g d : Nat) (rest : List Char), l.length < g →
      scanElems g d (renderStrings l ++ Char.ofNat 93 :: rest) = some (l.map JSON.str, rest) := by
  have h93 : (Char.ofNat 93).toNat = 93 := by decide
  have h44 : (Char.ofNat 44).toNat = 44 := by decide
  induction l with
  | nil => exact absurd rfl hl
  | cons s t ih =>
    intro g d rest hg
    cases t with
    | nil =>
      obtain ⟨g', rfl⟩ : ∃ g', g = g' + 2 := ⟨g - 2, by simp at hg; omega⟩
      rw [renderStrings, scanElems, scanValue_string]
      simp [skipSpace_cons _ _ (by decide : isSpace (Char.ofNat 93) = false), h93]
    | cons t' l' =>
      obtain ⟨g', rfl⟩ : ∃ g', g = g' + 2 := ⟨g - 2, by simp at hg; omega⟩
      have ih' := ih (by simp) (g' + 1) d rest (by simp at hg ⊢; omega)
      rw [renderStrings, List.append_assoc, scanElems, scanValue_string]
      simp only [List.cons_append]
      simp [skipSpace_cons _ _ (by decide : isSpace (Char.ofNat 44) = false), h44, ih']

/-- A written array of strings is scanned as that array. -/
theorem scanValue_strings (l : List String) (g d : Nat) (rest : List Char)
    (hg : l.length < g) (hd : d < maxNestingDepth) :
    scanValue (g + 1) d (Char.ofNat 91 :: (renderStrings l ++ Char.ofNat 93 :: rest))
      = some (JSON.arr (l.map JSON.str), rest) := by
  have h91 : (Char.ofNat 91).toNat = 91 := by decide
  have h93 : (Char.ofNat 93).toNat = 93 := by decide
  have h34 : (Char.ofNat 34).toNat = 34 := by decide
  rw [scanValue, skipSpace_cons _ _ (by decide)]
  cases l with
  | nil =>
    simp [h91, hd, renderStrings, skipSpace_cons _ _ (by decide : isSpace (Char.ofNat 93) = false),
      h93]
  | cons s t =>
    have hq : ∃ tl, renderStrings (s :: t) ++ Char.ofNat 93 :: rest = Char.ofNat 34 :: tl := by
      cases t with
      | nil => exact ⟨_, by rw [renderStrings, quoteString_append]⟩
      | cons t' l' => exact ⟨_, by rw [renderStrings, List.append_assoc, quoteString_append]⟩
    obtain ⟨tl, htl⟩ := hq
    have he := scanElems_strings (s :: t) (by simp) g (d + 1) rest hg
    rw [htl] at he ⊢
    simp [h91, hd, skipSpace_cons _ _ (by decide : isSpace (Char.ofNat 34) = false), h34, he]

/-- An object of one member. -/
theorem scanValue_member (g d : Nat) (k : String) (v : JSON) (t r : List Char)
    (hd : d < maxNestingDepth)
    (h : scanValue g (d + 1) t = some (v, Char.ofNat 125 :: r)) :
    scanValue (g + 2) d (Char.ofNat 123 :: (quoteString k ++ Char.ofNat 58 :: t))
      = some (JSON.obj [(k, v)], r) := by
  have h123 : (Char.ofNat 123).toNat = 123 := by decide
  have h125 : (Char.ofNat 125).toNat = 125 := by decide
  have h34 : (Char.ofNat 34).toNat = 34 := by decide
  have h58 : (Char.ofNat 58).toNat = 58 := by decide
  have hs34 := skipSpace_cons (Char.ofNat 34) (quoteBody k.data ++ Char.ofNat 34 :: Char.ofNat 58 :: t)
    (by decide)
  rw [scanValue, skipSpace_cons _ _ (by decide), quoteString_append]
  simp only [h123, if_true, hd, hs34, h34]
  rw [scanMembers, hs34]
  simp [h34, scanString_quoteBody, skipSpace_cons _ _ (by decide : isSpace (Char.ofNat 58) = false),
    h58, h, skipSpace_cons _ _ (by decide : isSpace (Char.ofNat 125) = false), h125]

/-- Every string written takes at least one character. -/
theorem renderStrings_length (l : List String) : l.length ≤ (renderStrings l).length := by
  induction l with
  | nil => simp
  | cons s t ih =>
    cases t with
    | nil => simp [renderStrings, quoteString]
    | cons t' l' =>
      simp only [renderStrings, List.length_append, List.length_cons] at ih ⊢
      omega

/-- The text `listenText l` holds the document `listenDoc l`. -/
theorem readValue_listenText (l : List String) :
    readValue (listenText l) = .ok (listenDoc l) := by
  have hlen := renderStrings_length l
  obtain ⟨g, hg⟩ : ∃ g, (listenText l).length + 1 = g + 1 + 2 + 2 ∧ l.length < g := by
    refine ⟨(listenText l).length - 4, ?_, ?_⟩
    all_goals
      simp only [listenText, listenChars, String.length, List.length_cons, List.length_append,
        quoteString]
      omega
  have h3 := scanValue_strings l g 2 [Char.ofNat 125, Char.ofNat 125] hg.2 (by decide)
  have h2 := scanValue_member (g + 1) 1 "ListenAddrs" _ _ _ (by decide) h3
  have h1 := scanValue_member (g + 1 + 2) 0 "Network" _ _ _ (by decide) h2
  unfold readValue
  rw [hg.1]
  have : (listenText l).data = listenChars l := rfl
  rw [this]
  unfold listenChars
  simp only [List.cons_append, List.nil_append, List.append_assoc] at h1 ⊢
  rw [h1]
  rfl

/-- A written digit has the value of the digit. -/
theorem digitVal_digitChar (d : Nat) (h : d < 10) : digitVal (digitChar d) = some d := by
  have : ∀ d, d < 10 → digitVal (digitChar d) = some d := by decide
  exact this d h

/-- Code of a written digit. -/
theorem digitChar_toNat (d : Nat) (h : d < 10) : (digitChar d).toNat = 48 + d := by
  have : ∀ d, d < 10 → (digitChar d).toNat = 48 + d := by decide
  exact this d h

/-- A comma or closing brace is not a digit. -/
theorem digitVal_of_endsNumber (c : Char) (h : endsNumber c = true) : digitVal c = none := by
  simp only [endsNumber, Bool.or_eq_true, beq_iff_eq] at h
  unfold digitVal
  rw [if_neg (by omega)]

/-- A run of written digits ends where a comma or closing brace follows. -/
theorem scanDigits_digits (ds : List Nat) (hds : ∀ d ∈ ds, d < 10) (c : Char) (rest : List Char)
    (hc : endsNumber c = true) :
    scanDigits (ds.map digitChar ++ c :: rest) = (ds.map digitChar, c :: rest) := by
  induction ds with
  | nil => simp [scanDigits, digitVal_of_endsNumber c hc]
  | cons d ds ih =>
    have hd := digitVal_digitChar d (hds d (List.mem_cons_self _ _))
    have ih' := ih (fun x hx => hds x (List.mem_cons_of_mem _ hx))
    simp [scanDigits, hd, ih']

/-- Written digits, most significant first, denote the number of these digits. -/
theorem digitsVal_digits (ds : List Nat) (hds : ∀ d ∈ ds, d < 10) :
    digitsVal (ds.reverse.map digitChar) = Nat.ofDigits 10 ds := by
  unfold digitsVal
  induction ds with
  | nil => simp
  | cons d ds ih =>
    have hd := digitVal_digitChar d (hds d (List.mem_cons_self _ _))
    have ih' := ih (fun x hx => hds x (List.mem_cons_of_mem _ hx))
    simp only [List.reverse_cons, List.map_append, List.map_cons, List.map_nil,
      List.foldl_append, List.foldl_cons, List.foldl_nil, ih', hd, Option.getD_some,
      Nat.ofDigits_cons]
    ring

/-- A written natural number is read back as its integer part. -/
theorem scanIntPart_renderNat (n : Nat) (c : Char) (rest : List Char)
    (hc : endsNumber c = true) :
    scanIntPart (renderNat n ++ c :: rest) = some (n, c :: rest) := by
  by_cases hn : n = 0
  · subst hn
    have h48 : (Char.ofNat 48).toNat = 48 := by decide
    simp [renderNat, scanIntPart, h48]
  · have hne : Nat.digits 10 n ≠ [] := Nat.digits_ne_nil_iff_ne_zero.mpr hn
    have hlt : ∀ d ∈ Nat.digits 10 n, d < 10 := fun d hd => Nat.digits_lt_base (by norm_num) hd
    have hlast := Nat.getLast_digit_ne_zero 10 hn
    obtain ⟨ds, d, hrev⟩ : ∃ ds d, (Nat.digits 10 n).reverse = d :: ds := by
      cases h : (Nat.digits 10 n).reverse with
      | nil => exact absurd (List.reverse_eq_nil_iff.mp h) hne
      | cons d ds => exact ⟨ds, d, rfl⟩
    have hd0 : d ≠ 0 := by
      have : (Nat.digits 10 n).getLast hne = d := by
        have h1 : Nat.digits 10 n = (d :: ds).reverse := by
          rw [← hrev, List.reverse_reverse]
        simp [h1]
      rw [this] at hlast
      exact hlast
    have hmem : ∀ x ∈ d :: ds, x < 10 := by
      intro x hx
      apply hlt
      rw [← List.mem_reverse, hrev]
      exact hx
    have hd10 : d < 10 := hmem d (List.mem_cons_self _ _)
    have hds : ∀ x ∈ ds, x < 10 := fun x hx => hmem x (List.mem_cons_of_mem _ hx)
    have hval : digitsVal ((d :: ds).map digitChar) = n := by
      have := digitsVal_digits (Nat.digits 10 n) hlt
      rw [hrev, Nat.ofDigits_digits] at this
      exact this
    have hsd := scanDigits_digits ds hds c rest hc
    have htn := digitChar_toNat d hd10
    simp only [renderNat, hn, if_false, hrev, List.map_cons, List.cons_append, scanIntPart, htn]
    rw [if_neg (by omega), if_pos (by omega), hsd]
    simp only [List.map_cons] at hval
    rw [hval]

/-- No fraction before a comma or closing brace. -/
theorem scanFrac_end (c : Char) (rest : List Char) (hc : endsNumber c = true) :
    scanFrac (c :: rest) = some ([], c :: rest) := by
  simp only [endsNumber, Bool.or_eq_true, beq_iff_eq] at hc
  unfold scanFrac
  simp only
  rw [if_neg (by omega)]

/-- No exponent before a comma or closing brace. -/
theorem scanExp_end (c : Char) (rest : List Char) (hc : endsNumber c = true) :
    scanExp (c :: rest) = some ([], c :: rest) := by
  simp only [endsNumber, Bool.or_eq_true, beq_iff_eq] at hc
  unfold scanExp
  simp only
  rw [if_neg (by omega)]

/-- A written natural number starts with a digit. -/
theorem renderNat_head (n : Nat) :
    ∃ d tl, renderNat n = d :: tl ∧ 48 ≤ d.toNat ∧ d.toNat ≤ 57 := by
  by_cases hn : n = 0
  · exact ⟨Char.ofNat 48, [], by simp [renderNat, hn], by decide, by decide⟩
  · have hne : Nat.digits 10 n ≠ [] := Nat.digits_ne_nil_iff_ne_zero.mpr hn
    cases h : (Nat.digits 10 n).reverse with
    | nil => exact absurd (List.reverse_eq_nil_iff.mp h) hne
    | cons d ds =>
      have hd : d < 10 := by
        apply Nat.digits_lt_base (b := 10) (m := n) (by norm_num)
        rw [← List.mem_reverse, h]
        exact List.mem_cons_self _ _
      refine ⟨digitChar d, ds.map digitChar, by simp [renderNat, hn, h], ?_, ?_⟩
      · rw [digitChar_toNat d hd]
        omega
      · rw [digitChar_toNat d hd]
        omega

/-- A written integer is read back as its literal. -/
theorem scanNumber_renderInt (x : Int) (c : Char) (rest : List Char)
    (hc : endsNumber c = true) :
    scanNumber (renderInt x ++ c :: rest) = some (JNumber.ofInt x, c :: rest) := by
  have h45 : (Char.ofNat 45).toNat = 45 := by decide
  by_cases hx : x < 0
  · simp [renderInt, hx, scanNumber, h45, scanIntPart_renderNat _ c rest hc,
      scanFrac_end c rest hc, scanExp_end c rest hc, JNumber.ofInt]
  · obtain ⟨d, tl, hd, h1, h2⟩ := renderNat_head x.natAbs
    have hi := scanIntPart_renderNat x.natAbs c rest hc
    rw [hd, List.cons_append] at hi
    have hne : d.toNat ≠ 45 := by omega
    simp [renderInt, hx, scanNumber, hd, hne, hi, scanFrac_end c rest hc,
      scanExp_end c rest hc, JNumber.ofInt]

/-- A written integer starts with a minus sign or a digit. -/
theorem renderInt_head (x : Int) :
    ∃ d tl, renderInt x = d :: tl ∧ (d.toNat = 45 ∨ (48 ≤ d.toNat ∧ d.toNat ≤ 57)) := by
  by_cases hx : x < 0
  · exact ⟨Char.ofNat 45, renderNat x.natAbs, by simp [renderInt, hx], Or.inl (by decide)⟩
  · obtain ⟨d, tl, hd, h1, h2⟩ := renderNat_head x.natAbs
    exact ⟨d, tl, by simp [renderInt, hx, hd], Or.inr ⟨h1, h2⟩⟩

/-- A written integer is scanned as a number value. -/
theorem scanValue_renderInt (f depth : Nat) (x : Int) (c : Char) (rest : List Char)
    (hc : endsNumber c = true) :
    scanValue (f + 1) depth (renderInt x ++ c :: rest)
      = some (JSON.num (JNumber.ofInt x), c :: rest) := by
  have hn := scanNumber_renderInt x c rest hc
  obtain ⟨d, tl, hd, hdig⟩ := renderInt_head x
  rw [hd] at hn ⊢
  have hsp : isSpace d = false := by
    simp only [isSpace, Bool.or_eq_false_iff, beq_eq_false_iff_ne, ne_eq]
    omega
  rw [List.cons_append] at hn ⊢
  have n123 : d.toNat ≠ 123 := by omega
  have n91 : d.toNat ≠ 91 := by omega
  have n34 : d.toNat ≠ 34 := by omega
  have n116 : d.toNat ≠ 116 := by omega
  have n102 : d.toNat ≠ 102 := by omega
  have n110 : d.toNat ≠ 110 := by omega
  rw [scanValue, skipSpace_cons _ _ hsp]
  simp only [n123, n91, n34, n116, n102, n110, if_false, hn]
  rfl

/-- The last member of an object. -/
theorem scanMembers_last (g d : Nat) (k : String) (v : JSON) (t r : List Char)
    (h : scanValue g d t = some (v, Char.ofNat 125 :: r)) :
    scanMembers (g + 1) d (quoteString k ++ Char.ofNat 58 :: t) = some ([(k, v)], r) := by
  have h125 : (Char.ofNat 125).toNat = 125 := by decide
  have h34 : (Char.ofNat 34).toNat = 34 := by decide
  have h58 : (Char.ofNat 58).toNat = 58 := by decide
  rw [quoteString_append, scanMembers, skipSpace_cons _ _ (by decide)]
  simp [h34, scanString_quoteBody, skipSpace_cons _ _ (by decide : isSpace (Char.ofNat 58) = false),
    h58, h, skipSpace_cons _ _ (by decide : isSpace (Char.ofNat 125) = false), h125]

/-- A member of an object followed by more members. -/
theorem scanMembers_more (g d : Nat) (k : String) (v : JSON) (t t' r : List Char)
    (ms : List (String × JSON))
    (h : scanValue g d t = some (v, Char.ofNat 44 :: t'))
    (hm : scanMembers g d t' = some (ms, r)) :
    scanMembers (g + 1) d (quoteString k ++ Char.ofNat 58 :: t) = some ((k, v) :: ms, r) := by
  have h44 : (Char.ofNat 44).toNat = 44 := by decide
  have h34 : (Char.ofNat 34).toNat = 34 := by decide
  have h58 : (Char.ofNat 58).toNat = 58 := by decide
  rw [quoteString_append, scanMembers, skipSpace_cons _ _ (by decide)]
  simp [h34, scanString_quoteBody, skipSpace_cons _ _ (by decide : isSpace (Char.ofNat 58) = false),
    h58, h, skipSpace_cons _ _ (by decide : isSpace (Char.ofNat 44) = false), h44, hm]

/-- An object whose members are scanned from the first key on. -/
theorem scanValue_object (g d : Nat) (k : String) (t r : List Char) (ms : List (String × JSON))
    (hd : d < maxNestingDepth)
    (h : scanMembers g (d + 1) (quoteString k ++ t) = some (ms, r)) :
    scanValue (g + 1) d (Char.ofNat 123 :: (quoteString k ++ t)) = some (JSON.obj ms, r) := by
  have h123 : (Char.ofNat 123).toNat = 123 := by decide
  have h34 : (Char.ofNat 34).toNat = 34 := by decide
  rw [quoteString_append] at h ⊢
  have hs34 := skipSpace_cons (Char.ofNat 34) (quoteBody k.data ++ Char.ofNat 34 :: t) (by decide)
  rw [scanValue, skipSpace_cons _ _ (by decide)]
  simp only [h123, if_true, hd, hs34, h34]
  simp [h]

/-- The text `connMgrText lo hi grace` holds the document `connMgrDoc lo hi grace`. -/
theorem readValue_connMgrText (lo hi grace : Int) :
    readValue (connMgrText lo hi grace) = .ok (connMgrDoc lo hi grace) := by
  obtain ⟨f, hf⟩ : ∃ f, (connMgrText lo hi grace).length + 1 = f + 1 + 1 + 1 + 1 + 1 + 2 := by
    refine ⟨(connMgrText lo hi grace).length - 6, ?_⟩
    simp only [connMgrText, connMgrChars, String.length, List.length_cons, List.length_append,
      quoteString]
    omega
  have hG := scanValue_renderInt f 2 grace (Char.ofNat 125) [Char.ofNat 125] (by decide)
  have mG := scanMembers_last (f + 1) 2 "ConnMgrGrace" _ _ _ hG
  have hH := scanValue_renderInt (f + 1) 2 hi (Char.ofNat 44)
    (quoteString "ConnMgrGrace" ++ Char.ofNat 58 ::
      (renderInt grace ++ [Char.ofNat 125, Char.ofNat 125])) (by decide)
  have mH := scanMembers_more (f + 1 + 1) 2 "ConnMgrHi" _ _ _ _ _ hH mG
  have hL := scanValue_renderInt (f + 1 + 1) 2 lo (Char.ofNat 44)
    (quoteString "ConnMgrHi" ++ Char.ofNat 58 :: (renderInt hi ++ Char.ofNat 44 ::
      (quoteString "ConnMgrGrace" ++ Char.ofNat 58 ::
        (renderInt grace ++ [Char.ofNat 125, Char.ofNat 125])))) (by decide)
  have mL := scanMembers_more (f + 1 + 1 + 1) 2 "ConnMgrLo" _ _ _ _ _ hL mH
  have hO := scanValue_object (f + 1 + 1 + 1 + 1) 1 "ConnMgrLo" _ _ _ (by decide) mL
  have hT := scanValue_member (f + 1 + 1 + 1 + 1 + 1) 0 "ConnMgr" _ _ _ (by decide) hO
  unfold readValue
  rw [hf]
  have : (connMgrText lo hi grace).data = connMgrChars lo hi grace := rfl
  rw [this]
  unfold connMgrChars
  rw [hT]
  rfl

/-! ## `LoadConfig` and the decoder -/

/-- LoadConfig by cases on the path, the file and the error of the decoder. -/
theorem loadConfig_eq (D : Deps) (fs : FS) (path : String) :
    LoadConfig D fs path =
      if path ≠ "" then
        match fs path with
        | none => (Config.zero D, some (Error.openFailed path))
        | some text =>
          match (Decode D text (DefaultConfig D)).2 with
          | some err => (Config.zero D, some err)
          | none => ((Decode D text (DefaultConfig D)).1, none)
      else (DefaultConfig D, none) := by
  unfold LoadConfig
  by_cases hp : path = ""
  · simp [hp]
  · simp only [ne_eq, hp, not_false_eq_true, if_true]
    cases fs path with
    | none => rfl
    | some text =>
      rcases hd : Decode D text (DefaultConfig D) with ⟨c, _ | e⟩ <;> simp [hd]

/-- A load that succeeds on a file holding a document returns what `Unmarshal`
makes of the defaults, and `Unmarshal` met no type error. -/
theorem loadConfig_ok {D : Deps} {fs : FS} {path text : String} {doc : JSON}
    {cfg : Config D.Resources} (hpath : path ≠ "") (hfs : fs path = some text)
    (hdoc : readValue text = .ok doc) (hload : LoadConfig D fs path = (cfg, none)) :
    cfg = (Unmarshal D doc (DefaultConfig D)).1 ∧ (Unmarshal D doc (DefaultConfig D)).2 = false := by
  cases hu : (Unmarshal D doc (DefaultConfig D)).2 with
  | true => simp [loadConfig_eq, hpath, hfs, Decode, hdoc, hu] at hload
  | false =>
    simp only [loadConfig_eq, hpath, ne_eq, not_false_eq_true, if_true, hfs, Decode, hdoc, hu,
      Bool.false_eq_true, if_false, Prod.mk.injEq, and_true] at hload
    exact ⟨hload.symm, rfl⟩

/-- A document that `Unmarshal` takes without type error loads without error. -/
theorem loadConfig_of_unmarshal {D : Deps} {fs : FS} {path text : String} {doc : JSON}
    (hpath : path ≠ "") (hfs : fs path = some text) (hdoc : readValue text = .ok doc)
    (hu : (Unmarshal D doc (DefaultConfig D)).2 = false) :
    LoadConfig D fs path = ((Unmarshal D doc (DefaultConfig D)).1, none) := by
  simp [loadConfig_eq, hpath, hfs, Decode, hdoc, hu]

/-- With the empty path nothing is opened and the defaults are returned. -/
theorem loadConfig_nil_path (D : Deps) (fs : FS) :
    LoadConfig D fs "" = (DefaultConfig D, none) := by
  simp [LoadConfig]

/-! ## The claims -/

/-- C1: `LoadConfig` called with the empty path returns a nil error and a
`Config` equal to `DefaultConfig()`, whatever the file system holds: no file is
consulted. -/
theorem loadConfig_empty_path (D : Deps) (fs : FS) :
    LoadConfig D fs "" = (DefaultConfig D, none) := by
  simp [LoadConfig]

/-- C5: the defaults of the connection manager, the relay, the NAT service and
the profiling port: watermarks 512 and 768 (low below high), a grace period of
two minutes, that is 120,000,000,000 nanoseconds, relay and NAT service enabled,
pprof on port 6060. -/
theorem defaultConfig_values (D : Deps) :
    (DefaultConfig D).ConnMgr.ConnMgrLo = 512 ∧
    (DefaultConfig D).ConnMgr.ConnMgrHi = 768 ∧
    (DefaultConfig D).ConnMgr.ConnMgrLo ≤ (DefaultConfig D).ConnMgr.ConnMgrHi ∧
    (DefaultConfig D).ConnMgr.ConnMgrGrace = 2 * Minute ∧
    (DefaultConfig D).ConnMgr.ConnMgrGrace = 120000000000 ∧
    (DefaultConfig D).Relay.Enabled = true ∧
    (DefaultConfig D).NATService.Enabled = true ∧
    (DefaultConfig D).Daemon.PprofPort = 6060 := by
  refine ⟨rfl, rfl, ?_, rfl, ?_, rfl, rfl, rfl⟩
  · show (512 : Int) ≤ 768
    decide
  · show 2 * Minute = 120000000000
    decide

/-- C7: the default listen addresses are exactly the four addresses QUIC over
IPv4, QUIC over IPv6, TCP over IPv4 and TCP over IPv6, all on port 4001, and
there is no default announce address. -/
theorem defaultConfig_listenAddrs (D : Deps) :
    (DefaultConfig D).Network.ListenAddrs.elems =
      ["/ip4/0.0.0.0/udp/4001/quic", "/ip6/::/udp/4001/quic",
       "/ip4/0.0.0.0/tcp/4001", "/ip6/::/tcp/4001"] ∧
    (DefaultConfig D).Network.ListenAddrs.elems.length = 4 ∧
    (DefaultConfig D).Network.AnnounceAddrs.elems = [] := by
  refine ⟨rfl, rfl, rfl⟩

/-- C9: whenever `LoadConfig` returns an error, the `Config` it returns is the
zero value `Config{}`: watermarks, grace and port 0, relay and NAT service
disabled, every list empty. It is not `DefaultConfig()`, and it is not the
configuration the decoder had filled in when it failed. -/
theorem loadConfig_error_zero (D : Deps) (fs : FS) (path : String)
    (cfg : Config D.Resources) (err : Error) (h : LoadConfig D fs path = (cfg, some err)) :
    cfg = Config.zero D ∧
    cfg.ConnMgr.ConnMgrLo = 0 ∧ cfg.ConnMgr.ConnMgrHi = 0 ∧ cfg.ConnMgr.ConnMgrGrace = 0 ∧
    cfg.Relay.Enabled = false ∧ cfg.Relay.Resources = D.zeroResources ∧
    cfg.NATService.Enabled = false ∧ cfg.Daemon.PprofPort = 0 ∧
    cfg.Network.ListenAddrs.elems = [] ∧ cfg.Network.AnnounceAddrs.elems = [] ∧
    cfg.ACL.AllowPeers.elems = [] ∧ cfg.ACL.AllowSubnets.elems = [] ∧
    cfg ≠ DefaultConfig D := by
  have hz : cfg = Config.zero D := by
    rw [loadConfig_eq] at h
    split at h
    · split at h
      · exact (Prod.mk.inj h).1.symm
      · split at h
        · exact (Prod.mk.inj h).1.symm
        · simp at h
    · simp at h
  subst hz
  refine ⟨rfl, rfl, rfl, rfl, rfl, rfl, rfl, rfl, rfl, rfl, rfl, rfl, ?_⟩
  intro hc
  have := congrArg (fun c => c.Daemon.PprofPort) hc
  simp [Config.zero, DefaultConfig] at this

/-- C9 at concrete inputs: a missing file, and a document whose `PprofPort` is
stored before a string given for `ConnMgrLo` makes the decoder fail: the decoder
leaves port 1 behind, `LoadConfig` returns the zero value. -/
theorem loadConfig_error_zero_witness :
    LoadConfig linux64 (fun _ => none) confPath
      = (Config.zero linux64, some (Error.openFailed confPath)) ∧
    (Decode linux64 lateErrorText (DefaultConfig linux64)).1.Daemon.PprofPort = 1 ∧
    (LoadConfig linux64 (singleFile confPath lateErrorText) confPath).1 = Config.zero linux64 ∧
    (LoadConfig linux64 (singleFile confPath lateErrorText) confPath).1.Daemon.PprofPort = 0 :=
  ⟨rfl, rfl,
   (loadConfig_error_zero linux64 (singleFile confPath lateErrorText) confPath _
      Error.typeMismatch rfl).1,
   (loadConfig_error_zero linux64 (singleFile confPath lateErrorText) confPath _
      Error.typeMismatch rfl).2.2.2.2.2.2.2.1⟩

/-- A field for which the document has no value keeps what it held. -/
theorem leaf_absent {S T α : Type} {set1 : String → JSON → S → S × Bool}
    {set2 : String → JSON → T → T × Bool} {sect field : String}
    {get1 : S → T} {get2 : T → α} {upd : JSON → α → α × Bool}
    (L1 : FieldLens set1 sect get1 (storeStruct set2)) (L2 : FieldLens set2 field get2 upd)
    (doc : JSON) (s : S) (h : leafValues doc sect field = []) :
    get2 (get1 (storeStruct set1 doc s).1) = get2 (get1 s) := by
  have := (lens_leaf L1 L2 doc s).1
  rw [h] at this
  simpa [runVals] using this

/-- A section for which the document has no member keeps what it held. -/
theorem section_absent {S T : Type} {set1 : String → JSON → S → S × Bool}
    {set2 : String → JSON → T → T × Bool} {sect : String} {get1 : S → T}
    (L1 : FieldLens set1 sect get1 (storeStruct set2))
    (doc : JSON) (s : S) (h : valuesAt sect doc.members = []) :
    get1 (storeStruct set1 doc s).1 = get1 s := by
  have := (lens_store L1 doc s).1
  rw [h] at this
  simpa [runVals] using this

/-- The document `hiText`. -/
theorem readValue_hiText :
    readValue hiText = .ok (JSON.obj [("ConnMgr", JSON.obj [("ConnMgrHi", JSON.num ⟨false, 1000, []⟩)])]) :=
  rfl

/-- C2: in the `Config` of a successful load, every field for which the document
has no key (none in any object given for its section) has the value it has in
`DefaultConfig()`; and the document `{"ConnMgr":{"ConnMgrHi":1000}}` yields
`DefaultConfig()` with `ConnMgrHi` replaced by 1000. -/
theorem absent_fields_keep_defaults (D : Deps) :
    (∀ (fs : FS) (path text : String) (doc : JSON) (cfg : Config D.Resources),
      path ≠ "" → fs path = some text → readValue text = .ok doc →
      LoadConfig D fs path = (cfg, none) →
      (leafValues doc "Network" "ListenAddrs" = [] →
        cfg.Network.ListenAddrs = (DefaultConfig D).Network.ListenAddrs) ∧
      (leafValues doc "Network" "AnnounceAddrs" = [] →
        cfg.Network.AnnounceAddrs = (DefaultConfig D).Network.AnnounceAddrs) ∧
      (leafValues doc "ConnMgr" "ConnMgrLo" = [] →
        cfg.ConnMgr.ConnMgrLo = (DefaultConfig D).ConnMgr.ConnMgrLo) ∧
      (leafValues doc "ConnMgr" "ConnMgrHi" = [] →
        cfg.ConnMgr.ConnMgrHi = (DefaultConfig D).ConnMgr.ConnMgrHi) ∧
      (leafValues doc "ConnMgr" "ConnMgrGrace" = [] →
        cfg.ConnMgr.ConnMgrGrace = (DefaultConfig D).ConnMgr.ConnMgrGrace) ∧
      (leafValues doc "Relay" "Enabled" = [] →
        cfg.Relay.Enabled = (DefaultConfig D).Relay.Enabled) ∧
      (leafValues doc "Relay" "Resources" = [] →
        cfg.Relay.Resources = (DefaultConfig D).Relay.Resources) ∧
      (leafValues doc "NATService" "Enabled" = [] →
        cfg.NATService.Enabled = (DefaultConfig D).NATService.Enabled) ∧
      (leafValues doc "ACL" "AllowPeers" = [] →
        cfg.ACL.AllowPeers = (DefaultConfig D).ACL.AllowPeers) ∧
      (leafValues doc "ACL" "AllowSubnets" = [] →
        cfg.ACL.AllowSubnets = (DefaultConfig D).ACL.AllowSubnets) ∧
      (leafValues doc "Daemon" "PprofPort" = [] →
        cfg.Daemon.PprofPort = (DefaultConfig D).Daemon.PprofPort)) ∧
    (∀ (fs : FS) (path : String), path ≠ "" → fs path = some hiText →
      LoadConfig D fs path =
        ({ DefaultConfig D with
            ConnMgr := { ConnMgrLo := 512, ConnMgrHi := 1000, ConnMgrGrace := 2 * Minute } },
         none)) := by
  constructor
  · intro fs path text doc cfg hpath hfs hdoc hload
    obtain ⟨hcfg, -⟩ := loadConfig_ok hpath hfs hdoc hload
    subst hcfg
    unfold Unmarshal
    refine ⟨?_, ?_, ?_, ?_, ?_, ?_, ?_, ?_, ?_, ?_, ?_⟩
    · exact leaf_absent (lens_Network D) lens_Network_ListenAddrs doc _
    · exact leaf_absent (lens_Network D) lens_Network_AnnounceAddrs doc _
    · exact leaf_absent (lens_ConnMgr D) (lens_ConnMgr_ConnMgrLo D) doc _
    · exact leaf_absent (lens_ConnMgr D) (lens_ConnMgr_ConnMgrHi D) doc _
    · exact leaf_absent (lens_ConnMgr D) (lens_ConnMgr_ConnMgrGrace D) doc _
    · exact leaf_absent (lens_Relay D) (lens_Relay_Enabled D) doc _
    · exact leaf_absent (lens_Relay D) (lens_Relay_Resources D) doc _
    · exact leaf_absent (lens_NATService D) lens_NATService_Enabled doc _
    · exact leaf_absent (lens_ACL D) lens_ACL_AllowPeers doc _
    · exact leaf_absent (lens_ACL D) lens_ACL_AllowSubnets doc _
    · exact leaf_absent (lens_Daemon D) (lens_Daemon_PprofPort D) doc _
  · intro fs path hpath hfs
    have hu : Unmarshal D (JSON.obj [("ConnMgr", JSON.obj [("ConnMgrHi", JSON.num ⟨false, 1000, []⟩)])])
        (DefaultConfig D) =
        ({ DefaultConfig D with
            ConnMgr := { ConnMgrLo := 512, ConnMgrHi := 1000, ConnMgrGrace := 2 * Minute } },
         false) := by
      obtain ⟨w, R, z, d, u⟩ := D
      cases w <;> rfl
    rw [loadConfig_of_unmarshal hpath hfs readValue_hiText (by rw [hu]), hu]

/-- C2 at a concrete input: the file holds `{"ConnMgr":{"ConnMgrHi":1000}}`; the
low watermark, of which the document says nothing, is the default 512, and the
whole `Config` is the default one but for `ConnMgrHi`. -/
theorem absent_fields_keep_defaults_witness :
    leafValues (JSON.obj [("ConnMgr", JSON.obj [("ConnMgrHi", JSON.num ⟨false, 1000, []⟩)])])
      "ConnMgr" "ConnMgrLo" = [] ∧
    (LoadConfig linux64 (singleFile confPath hiText) confPath).1.ConnMgr.ConnMgrLo = 512 ∧
    LoadConfig linux64 (singleFile confPath hiText) confPath =
        ({ DefaultConfig linux64 with
            ConnMgr := { ConnMgrLo := 512, ConnMgrHi := 1000, ConnMgrGrace := 2 * Minute } },
         none) :=
  ⟨rfl,
   ((absent_fields_keep_defaults linux64).1 (singleFile confPath hiText) confPath hiText _ _
      (by decide) rfl readValue_hiText rfl).2.2.1 rfl,
   (absent_fields_keep_defaults linux64).2 (singleFile confPath hiText) confPath (by decide) rfl⟩

/-- C6: `DefaultConfig()` has no ACL entries, `AllowPeers` and `AllowSubnets`
are both of length 0, and so are they in the `Config` that `LoadConfig` returns
for a file whose document has no `ACL` key. -/
theorem acl_empty_by_default (D : Deps) :
    ((DefaultConfig D).ACL.AllowPeers.elems = [] ∧
     (DefaultConfig D).ACL.AllowPeers.elems.length = 0 ∧
     (DefaultConfig D).ACL.AllowSubnets.elems = [] ∧
     (DefaultConfig D).ACL.AllowSubnets.elems.length = 0) ∧
    (∀ (fs : FS) (path text : String) (doc : JSON),
      fs path = some text → readValue text = .ok doc →
      valuesAt "ACL" doc.members = [] →
      (LoadConfig D fs path).1.ACL.AllowPeers.elems = [] ∧
      (LoadConfig D fs path).1.ACL.AllowSubnets.elems = []) := by
  refine ⟨⟨rfl, rfl, rfl, rfl⟩, ?_⟩
  intro fs path text doc hfs hdoc hno
  by_cases hpath : path = ""
  · subst hpath
    rw [loadConfig_nil_path]
    exact ⟨rfl, rfl⟩
  · cases hu : (Unmarshal D doc (DefaultConfig D)).2 with
    | true =>
      have : LoadConfig D fs path = (Config.zero D, some Error.typeMismatch) := by
        simp [loadConfig_eq, hpath, hfs, Decode, hdoc, hu]
      rw [this]
      exact ⟨rfl, rfl⟩
    | false =>
      rw [loadConfig_of_unmarshal hpath hfs hdoc hu]
      have := section_absent (lens_ACL D) doc (DefaultConfig D) hno
      unfold Unmarshal
      simp only [this]
      exact ⟨rfl, rfl⟩

/-- C6 at a concrete input: `{"ConnMgr":{"ConnMgrHi":1000}}` has no `ACL` key. -/
theorem acl_empty_by_default_witness :
    valuesAt "ACL"
      (JSON.obj [("ConnMgr", JSON.obj [("ConnMgrHi", JSON.num ⟨false, 1000, []⟩)])]).members = [] ∧
    (LoadConfig linux64 (singleFile confPath hiText) confPath).1.ACL.AllowPeers.elems = [] ∧
    (LoadConfig linux64 (singleFile confPath hiText) confPath).1.ACL.AllowSubnets.elems = [] :=
  ⟨rfl,
   (acl_empty_by_default linux64).2 (singleFile confPath hiText) confPath hiText _ rfl
     readValue_hiText rfl⟩

/-- A scalar field of a section after a decode without type error: what the
last non-null value given for it denotes, or its old content if there is none. -/
theorem leaf_scalar {S T α : Type} {set1 : String → JSON → S → S × Bool}
    {set2 : String → JSON → T → T × Bool} {sect field : String}
    {get1 : S → T} {get2 : T → α} {upd : JSON → α → α × Bool} {den : JSON → Option α}
    (L1 : FieldLens set1 sect get1 (storeStruct set2)) (L2 : FieldLens set2 field get2 upd)
    (H : ScalarStore upd den) (doc : JSON) (s : S) (h : (storeStruct set1 doc s).2 = false) :
    (∀ v, lastNonNull (leafValues doc sect field) = some v →
      den v = some (get2 (get1 (storeStruct set1 doc s).1))) ∧
    (lastNonNull (leafValues doc sect field) = none →
      get2 (get1 (storeStruct set1 doc s).1) = get2 (get1 s)) := by
  have hl := lens_leaf L1 L2 doc s
  have hs := runVals_scalar H (leafValues doc sect field) (get2 (get1 s)) (hl.2 h)
  rw [hl.1]
  exact hs

/-- A list field of a section after a decode: the strings of the last value
given for it if that is an array of strings, empty if it is `null`. -/
theorem leaf_strings {S T : Type} {set1 : String → JSON → S → S × Bool}
    {set2 : String → JSON → T → T × Bool} {sect field : String}
    {get1 : S → T} {get2 : T → GoSlice}
    (L1 : FieldLens set1 sect get1 (storeStruct set2))
    (L2 : FieldLens set2 field get2 storeStrings)
    (doc : JSON) (s : S) (v : JSON) (hv : (leafValues doc sect field).getLast? = some v) :
    (∀ l, v.asStrings = some l → (get2 (get1 (storeStruct set1 doc s).1)).elems = l) ∧
    (v = JSON.null → (get2 (get1 (storeStruct set1 doc s).1)).elems = []) := by
  have hl := lens_leaf L1 L2 doc s
  rw [hl.1]
  exact runVals_storeStrings _ _ v hv

/-- The document `relayOffText`. -/
theorem readValue_relayOffText :
    readValue relayOffText = .ok (JSON.obj [("Relay", JSON.obj [("Enabled", JSON.bool false)])]) :=
  rfl

/-- The document `portZeroText`. -/
theorem readValue_portZeroText :
    readValue portZeroText
      = .ok (JSON.obj [("Daemon", JSON.obj [("PprofPort", JSON.num ⟨false, 0, []⟩)])]) :=
  rfl

/-- The document `portNullText`. -/
theorem readValue_portNullText :
    readValue portNullText = .ok (JSON.obj [("Daemon", JSON.obj [("PprofPort", JSON.null)])]) :=
  rfl

/-- C8, as stated, fails: the document `{"Daemon":{"PprofPort":null}}` is decoded
without error and holds the key `PprofPort`, yet the returned `PprofPort` is the
default 6060, which the value `null` of the document does not denote. -/
theorem present_null_keeps_default :
    readValue portNullText = .ok (JSON.obj [("Daemon", JSON.obj [("PprofPort", JSON.null)])]) ∧
    leafValues (JSON.obj [("Daemon", JSON.obj [("PprofPort", JSON.null)])]) "Daemon" "PprofPort"
      = [JSON.null] ∧
    JSON.null.asInt = none ∧
    LoadConfig linux64 (singleFile confPath portNullText) confPath
      = (DefaultConfig linux64, none) ∧
    (LoadConfig linux64 (singleFile confPath portNullText) confPath).1.Daemon.PprofPort = 6060 :=
  ⟨rfl, rfl, rfl, rfl, rfl⟩

/-- C8, amended: in the `Config` of a successful load, an integer, duration or
boolean field has the value denoted by the last non-null value the document
gives for its key, also when that is 0 or false, and keeps its default if the
document gives it only `null`; a list field has the strings of the last value
given for its key when that is an array of strings, and is empty when it is
`null`. So `{"Relay":{"Enabled":false}}` yields `Relay.Enabled = false` and
`{"Daemon":{"PprofPort":0}}` yields `PprofPort = 0`, every other field at its default. -/
theorem present_fields_hold_document_values (D : Deps) :
    (∀ (fs : FS) (path text : String) (doc : JSON) (cfg : Config D.Resources),
      path ≠ "" → fs path = some text → readValue text = .ok doc →
      LoadConfig D fs path = (cfg, none) →
      ((∀ v, lastNonNull (leafValues doc "ConnMgr" "ConnMgrLo") = some v →
          v.asInt = some cfg.ConnMgr.ConnMgrLo) ∧
       (∀ v, lastNonNull (leafValues doc "ConnMgr" "ConnMgrHi") = some v →
          v.asInt = some cfg.ConnMgr.ConnMgrHi) ∧
       (∀ v, lastNonNull (leafValues doc "ConnMgr" "ConnMgrGrace") = some v →
          v.asInt = some cfg.ConnMgr.ConnMgrGrace) ∧
       (∀ v, lastNonNull (leafValues doc "Daemon" "PprofPort") = some v →
          v.asInt = some cfg.Daemon.PprofPort) ∧
       (∀ v, lastNonNull (leafValues doc "Relay" "Enabled") = some v →
          v.asBool = some cfg.Relay.Enabled) ∧
       (∀ v, lastNonNull (leafValues doc "NATService" "Enabled") = some v →
          v.asBool = some cfg.NATService.Enabled)) ∧
      ((lastNonNull (leafValues doc "ConnMgr" "ConnMgrLo") = none →
          cfg.ConnMgr.ConnMgrLo = (DefaultConfig D).ConnMgr.ConnMgrLo) ∧
       (lastNonNull (leafValues doc "ConnMgr" "ConnMgrHi") = none →
          cfg.ConnMgr.ConnMgrHi = (DefaultConfig D).ConnMgr.ConnMgrHi) ∧
       (lastNonNull (leafValues doc "ConnMgr" "ConnMgrGrace") = none →
          cfg.ConnMgr.ConnMgrGrace = (DefaultConfig D).ConnMgr.ConnMgrGrace) ∧
       (lastNonNull (leafValues doc "Daemon" "PprofPort") = none →
          cfg.Daemon.PprofPort = (DefaultConfig D).Daemon.PprofPort) ∧
       (lastNonNull (leafValues doc "Relay" "Enabled") = none →
          cfg.Relay.Enabled = (DefaultConfig D).Relay.Enabled) ∧
       (lastNonNull (leafValues doc "NATService" "Enabled") = none →
          cfg.NATService.Enabled = (DefaultConfig D).NATService.Enabled)) ∧
      ((∀ v, (leafValues doc "Network" "ListenAddrs").getLast? = some v →
          (∀ l, v.asStrings = some l → cfg.Network.ListenAddrs.elems = l) ∧
          (v = JSON.null → cfg.Network.ListenAddrs.elems = [])) ∧
       (∀ v, (leafValues doc "Network" "AnnounceAddrs").getLast? = some v →
          (∀ l, v.asStrings = some l → cfg.Network.AnnounceAddrs.elems = l) ∧
          (v = JSON.null → cfg.Network.AnnounceAddrs.elems = [])) ∧
       (∀ v, (leafValues doc "ACL" "AllowPeers").getLast? = some v →
          (∀ l, v.asStrings = some l → cfg.ACL.AllowPeers.elems = l) ∧
          (v = JSON.null → cfg.ACL.AllowPeers.elems = [])) ∧
       (∀ v, (leafValues doc "ACL" "AllowSubnets").getLast? = some v →
          (∀ l, v.asStrings = some l → cfg.ACL.AllowSubnets.elems = l) ∧
          (v = JSON.null → cfg.ACL.AllowSubnets.elems = [])))) ∧
    (∀ (fs : FS) (path : String), path ≠ "" → fs path = some relayOffText →
      LoadConfig D fs path =
        ({ DefaultConfig D with Relay := { Enabled := false, Resources := D.DefaultResources } },
         none)) ∧
    (∀ (fs : FS) (path : String), path ≠ "" → fs path = some portZeroText →
      LoadConfig D fs path = ({ DefaultConfig D with Daemon := { PprofPort := 0 } }, none)) := by
  refine ⟨?_, ?_, ?_⟩
  · intro fs path text doc cfg hpath hfs hdoc hload
    obtain ⟨hcfg, herr⟩ := loadConfig_ok hpath hfs hdoc hload
    subst hcfg
    unfold Unmarshal at herr ⊢
    have hLo := leaf_scalar (lens_ConnMgr D) (lens_ConnMgr_ConnMgrLo D)
      (scalar_storeInt _) doc _ herr
    have hHi := leaf_scalar (lens_ConnMgr D) (lens_ConnMgr_ConnMgrHi D)
      (scalar_storeInt _) doc _ herr
    have hGr := leaf_scalar (lens_ConnMgr D) (lens_ConnMgr_ConnMgrGrace D)
      (scalar_storeInt _) doc _ herr
    have hPo := leaf_scalar (lens_Daemon D) (lens_Daemon_PprofPort D)
      (scalar_storeInt _) doc _ herr
    have hRe := leaf_scalar (lens_Relay D) (lens_Relay_Enabled D) scalar_storeBool doc _ herr
    have hNa := leaf_scalar (lens_NATService D) lens_NATService_Enabled scalar_storeBool
      doc _ herr
    refine ⟨⟨hLo.1, hHi.1, hGr.1, hPo.1, hRe.1, hNa.1⟩,
      ⟨hLo.2, hHi.2, hGr.2, hPo.2, hRe.2, hNa.2⟩, ?_, ?_, ?_, ?_⟩
    · exact fun v hv => leaf_strings (lens_Network D) lens_Network_ListenAddrs doc _ v hv
    · exact fun v hv => leaf_strings (lens_Network D) lens_Network_AnnounceAddrs doc _ v hv
    · exact fun v hv => leaf_strings (lens_ACL D) lens_ACL_AllowPeers doc _ v hv
    · exact fun v hv => leaf_strings (lens_ACL D) lens_ACL_AllowSubnets doc _ v hv
  · intro fs path hpath hfs
    have hu : Unmarshal D (JSON.obj [("Relay", JSON.obj [("Enabled", JSON.bool false)])])
        (DefaultConfig D) =
        ({ DefaultConfig D with Relay := { Enabled := false, Resources := D.DefaultResources } },
         false) := rfl
    rw [loadConfig_of_unmarshal hpath hfs readValue_relayOffText (by rw [hu]), hu]
  · intro fs path hpath hfs
    have hu : Unmarshal D (JSON.obj [("Daemon", JSON.obj [("PprofPort", JSON.num ⟨false, 0, []⟩)])])
        (DefaultConfig D) = ({ DefaultConfig D with Daemon := { PprofPort := 0 } }, false) := by
      obtain ⟨w, R, z, d, u⟩ := D
      cases w <;> rfl
    rw [loadConfig_of_unmarshal hpath hfs readValue_portZeroText (by rw [hu]), hu]

/-- C8, amended, at concrete inputs: port 0 given by the document is returned,
and so is the disabled relay, every other field at its default. -/
theorem present_fields_hold_document_values_witness :
    lastNonNull (leafValues (JSON.obj [("Daemon", JSON.obj [("PprofPort", JSON.num ⟨false, 0, []⟩)])])
      "Daemon" "PprofPort") = some (JSON.num ⟨false, 0, []⟩) ∧
    (JSON.num ⟨false, 0, []⟩).asInt
      = some (LoadConfig linux64 (singleFile confPath portZeroText) confPath).1.Daemon.PprofPort ∧
    LoadConfig linux64 (singleFile confPath relayOffText) confPath =
        ({ DefaultConfig linux64 with
            Relay := { Enabled := false, Resources := linux64.DefaultResources } }, none) ∧
    LoadConfig linux64 (singleFile confPath portZeroText) confPath =
        ({ DefaultConfig linux64 with Daemon := { PprofPort := 0 } }, none) :=
  ⟨rfl,
   ((present_fields_hold_document_values linux64).1 (singleFile confPath portZeroText) confPath
      portZeroText _ _ (by decide) rfl readValue_portZeroText rfl).1.2.2.2.1 _ rfl,
   (present_fields_hold_document_values linux64).2.1 (singleFile confPath relayOffText) confPath
      (by decide) rfl,
   (present_fields_hold_document_values linux64).2.2 (singleFile confPath portZeroText) confPath
      (by decide) rfl⟩

/-- The document `listenDoc l` is decoded without type error and sets the listen addresses to `l`. -/
theorem unmarshal_listenDoc (D : Deps) (l : List String) :
    (Unmarshal D (listenDoc l) (DefaultConfig D)).2 = false ∧
    (Unmarshal D (listenDoc l) (DefaultConfig D)).1.Network.ListenAddrs.elems = l := by
  have k1 : keyMatches "Network" "Network" = true := by decide
  have k2 : keyMatches "ListenAddrs" "ListenAddrs" = true := by decide
  have hs := storeStrings_strings (l.map JSON.str) l (stringsOf_map_str l)
    (DefaultConfig D).Network.ListenAddrs
  simp only [Unmarshal, listenDoc, storeStruct, List.foldl, storeMember, Config.setField, k1,
    if_true, NetworkConfig.setField, k2, Bool.false_or]
  exact ⟨hs.2, hs.1⟩

/-- C10: a list given for `ListenAddrs` replaces the default list: for every
list `l` of strings, a file holding the document `{"Network":{"ListenAddrs":l}}`
loads without error and the returned `ListenAddrs` is exactly `l`; a default
address is among them only if it is in `l`, and the empty list stays empty.
The text `listenText l` is one such file, for every `l`. -/
theorem listenAddrs_replaced (D : Deps) (fs : FS) (path : String) (l : List String)
    (hpath : path ≠ "") :
    (∀ text, fs path = some text → readValue text = .ok (listenDoc l) →
      (LoadConfig D fs path).2 = none ∧
      (LoadConfig D fs path).1.Network.ListenAddrs.elems = l ∧
      (∀ a ∈ (DefaultConfig D).Network.ListenAddrs.elems,
        a ∈ (LoadConfig D fs path).1.Network.ListenAddrs.elems → a ∈ l) ∧
      (l = [] → (LoadConfig D fs path).1.Network.ListenAddrs.elems = [])) ∧
    readValue (listenText l) = .ok (listenDoc l) ∧
    (fs path = some (listenText l) →
      (LoadConfig D fs path).2 = none ∧
      (LoadConfig D fs path).1.Network.ListenAddrs.elems = l) := by
  have hu := unmarshal_listenDoc D l
  have key : ∀ text, fs path = some text → readValue text = .ok (listenDoc l) →
      LoadConfig D fs path = ((Unmarshal D (listenDoc l) (DefaultConfig D)).1, none) :=
    fun text hfs hdoc => loadConfig_of_unmarshal hpath hfs hdoc hu.1
  refine ⟨fun text hfs hdoc => ?_, readValue_listenText l, fun hfs => ?_⟩
  · rw [key text hfs hdoc]
    refine ⟨rfl, hu.2, fun a _ ha => ?_, fun hl => ?_⟩
    · simpa [hu.2] using ha
    · simpa [hu.2] using hl
  · rw [key _ hfs (readValue_listenText l)]
    exact ⟨rfl, hu.2⟩

/-- C10 at concrete inputs: one address in the file, one address returned, and
none of the four default ones; the empty list written as `[]` is returned empty. -/
theorem listenAddrs_replaced_witness :
    readValue oneAddrText = .ok (listenDoc ["/ip4/127.0.0.1/tcp/9000"]) ∧
    (LoadConfig linux64 (singleFile confPath oneAddrText) confPath).2 = none ∧
    (LoadConfig linux64 (singleFile confPath oneAddrText) confPath).1.Network.ListenAddrs.elems
      = ["/ip4/127.0.0.1/tcp/9000"] ∧
    (LoadConfig linux64 (singleFile confPath (listenText [])) confPath).1.Network.ListenAddrs.elems
      = [] :=
  ⟨rfl,
   ((listenAddrs_replaced linux64 (singleFile confPath oneAddrText) confPath
      ["/ip4/127.0.0.1/tcp/9000"] (by decide)).1 oneAddrText rfl rfl).1,
   ((listenAddrs_replaced linux64 (singleFile confPath oneAddrText) confPath
      ["/ip4/127.0.0.1/tcp/9000"] (by decide)).1 oneAddrText rfl rfl).2.1,
   ((listenAddrs_replaced linux64 (singleFile confPath (listenText [])) confPath
      [] (by decide)).2.2 rfl).2⟩

/-- The literal of an integer denotes the integer. -/
theorem toInt_ofInt (x : Int) : (JNumber.ofInt x).toInt = x := by
  unfold JNumber.ofInt JNumber.toInt
  by_cases h : x < 0
  · simp only [h, decide_True, if_true]
    omega
  · simp only [h, decide_False, Bool.false_eq_true, if_false]
    omega

/-- A value of `int` is a value of `int64`. -/
theorem fitsInt_word (w : WordSize) (x : Int) (h : fitsInt w.bits x = true) :
    fitsInt 64 x = true := by
  cases w with
  | w64 => exact h
  | w32 =>
    simp only [fitsInt, WordSize.bits, Bool.and_eq_true, decide_eq_true_eq] at h ⊢
    constructor <;> omega

/-- An integer within range is stored. -/
theorem storeInt_ofInt (bits : Nat) (x old : Int) (h64 : fitsInt 64 x = true)
    (h : fitsInt bits x = true) :
    storeInt bits (JSON.num (JNumber.ofInt x)) old = (x, false) := by
  simp only [storeInt, toInt_ofInt, h64, h]
  simp [JNumber.ofInt]

/-- The document `connMgrDoc lo hi grace` is decoded without type error and sets the three values. -/
theorem unmarshal_connMgrDoc (D : Deps) (lo hi grace : Int)
    (hlo : fitsInt D.intSize.bits lo = true) (hhi : fitsInt D.intSize.bits hi = true)
    (hgrace : fitsInt 64 grace = true) :
    Unmarshal D (connMgrDoc lo hi grace) (DefaultConfig D) =
      ({ DefaultConfig D with
          ConnMgr := { ConnMgrLo := lo, ConnMgrHi := hi, ConnMgrGrace := grace } }, false) := by
  have k1 : keyMatches "Network" "ConnMgr" = false := by decide
  have k2 : keyMatches "ConnMgr" "ConnMgr" = true := by decide
  have k3 : keyMatches "ConnMgrLo" "ConnMgrLo" = true := by decide
  have k4 : keyMatches "ConnMgrLo" "ConnMgrHi" = false := by decide
  have k5 : keyMatches "ConnMgrHi" "ConnMgrHi" = true := by decide
  have k6 : keyMatches "ConnMgrLo" "ConnMgrGrace" = false := by decide
  have k7 : keyMatches "ConnMgrHi" "ConnMgrGrace" = false := by decide
  have k8 : keyMatches "ConnMgrGrace" "ConnMgrGrace" = true := by decide
  simp only [Unmarshal, connMgrDoc, storeStruct, List.foldl, storeMember, Config.setField, k1,
    k2, k3, k4, k5, k6, k7, k8, if_true, ConnMgrConfig.setField, Bool.false_or,
    Bool.false_eq_true, if_false,
    storeInt_ofInt _ lo _ (fitsInt_word _ _ hlo) hlo,
    storeInt_ofInt _ hi _ (fitsInt_word _ _ hhi) hhi,
    storeInt_ofInt _ grace _ hgrace hgrace, Bool.or_self]

/-- C3, as stated, fails: the document `{"ConnMgr":{"ConnMgrLo":1000}}` overlays
the defaults with a low watermark above the high one, and `LoadConfig` returns
it with a nil error. -/
theorem low_above_high_loads :
    (LoadConfig linux64 (singleFile confPath loText) confPath).2 = none ∧
    (LoadConfig linux64 (singleFile confPath loText) confPath).1.ConnMgr.ConnMgrLo = 1000 ∧
    (LoadConfig linux64 (singleFile confPath loText) confPath).1.ConnMgr.ConnMgrHi = 768 ∧
    ¬ ((LoadConfig linux64 (singleFile confPath loText) confPath).1.ConnMgr.ConnMgrLo ≤
        (LoadConfig linux64 (singleFile confPath loText) confPath).1.ConnMgr.ConnMgrHi) :=
  ⟨rfl, rfl, rfl, by decide⟩

/-- C3, amended: `LoadConfig` checks no invariant on the merged configuration.
For all integers `lo`, `hi` within the range of `int` and `grace` within the
range of `int64`, a file holding
`{"ConnMgr":{"ConnMgrLo":lo,"ConnMgrHi":hi,"ConnMgrGrace":grace}}` (the text
`connMgrText lo hi grace` is one) loads with a nil error and exactly these three
values, whether or not `lo ≤ hi` and `grace ≥ 0`. The defaults, returned for the
empty path, do satisfy `ConnMgrLo ≤ ConnMgrHi` and `ConnMgrGrace ≥ 0`. -/
theorem loadConfig_not_validated (D : Deps) (fs : FS) (path : String) (lo hi grace : Int)
    (hpath : path ≠ "")
    (hlo : fitsInt D.intSize.bits lo = true) (hhi : fitsInt D.intSize.bits hi = true)
    (hgrace : fitsInt 64 grace = true) :
    (∀ text, fs path = some text → readValue text = .ok (connMgrDoc lo hi grace) →
      LoadConfig D fs path =
        ({ DefaultConfig D with
            ConnMgr := { ConnMgrLo := lo, ConnMgrHi := hi, ConnMgrGrace := grace } }, none)) ∧
    readValue (connMgrText lo hi grace) = .ok (connMgrDoc lo hi grace) ∧
    (LoadConfig D fs "").1.ConnMgr.ConnMgrLo ≤ (LoadConfig D fs "").1.ConnMgr.ConnMgrHi ∧
    0 ≤ (LoadConfig D fs "").1.ConnMgr.ConnMgrGrace := by
  have hu := unmarshal_connMgrDoc D lo hi grace hlo hhi hgrace
  refine ⟨fun text hfs hdoc => ?_, readValue_connMgrText lo hi grace, ?_, ?_⟩
  · rw [loadConfig_of_unmarshal hpath hfs hdoc (by rw [hu]), hu]
  · rw [loadConfig_nil_path]
    show (512 : Int) ≤ 768
    decide
  · rw [loadConfig_nil_path]
    show (0 : Int) ≤ 2 * Minute
    decide

/-- C3, amended, at a concrete input: low watermark 1000, high watermark 10 and
a grace period of -5 nanoseconds are loaded as they stand. -/
theorem loadConfig_not_validated_witness :
    readValue badWatermarksText = .ok (connMgrDoc 1000 10 (-5)) ∧
    LoadConfig linux64 (singleFile confPath badWatermarksText) confPath =
      ({ DefaultConfig linux64 with
          ConnMgr := { ConnMgrLo := 1000, ConnMgrHi := 10, ConnMgrGrace := -5 } }, none) :=
  ⟨by rfl,
   (loadConfig_not_validated linux64 (singleFile confPath badWatermarksText) confPath
      1000 10 (-5) (by decide) (by decide) (by decide) (by decide)).1 badWatermarksText rfl
      (by rfl)⟩

end RelayDaemon
